import Mathlib

/-!
# wasm-util: the gas instrumentation of a decoded WebAssembly module

A shallow embedding of `wasm/module.go` (`DecodeModule`, `DecodeModuleAddGas`)
and of `cmd/wasm-addgas/main.go` (`main`).

* Go pointers to sections (`*SectionTypes`, ...) are `Option`s; `nil` is `none`.
* `m.Sections` holds the same pointers as the typed fields, so the section
  sequence is a list of references (`SectionRef`) into the typed fields.
* `uint32` values are `Nat`s, reduced modulo `2 ^ 32` wherever Go arithmetic
  or a conversion can wrap.
* A Go run-time panic is an explicit outcome (`Panic`), distinct from a
  returned `error`.
* A Go `map[string]T` is `GoMap T`: a key/value list without repeated keys,
  read through `GoMap.get` only.
* Functions of the repository whose files are not at hand (the section reader,
  `disasm.DisassembleAddGas`, `disasm.Assemble`, `wasm.EncodeModule`) and the
  file operations are parameters of the functions that call them.
-/

namespace Wasm

/-! ## Go maps with string keys -/

/-- A Go `map[string]β`: every key occurs once. -/
structure GoMap (β : Type) where
  entries : List (String × β)
  nodup : (entries.map Prod.fst).Nodup

namespace GoMap

variable {β : Type}

/-- The Go expression `make(map[string]β)`. -/
def empty : GoMap β := ⟨[], List.nodup_nil⟩

/-- The Go expression `v, ok := m[k]`. -/
def get (m : GoMap β) (k : String) : Option β := m.entries.lookup k

/-- Entries of a key/value list whose key differs from `k`. -/
def dropKey (k : String) (l : List (String × β)) : List (String × β) :=
  l.filter (fun p => p.1 != k)

/-- The Go statement `m[k] = v`. -/
def set (m : GoMap β) (k : String) (v : β) : GoMap β :=
  ⟨(k, v) :: dropKey k m.entries,
   by
    rw [List.map_cons, List.nodup_cons]
    refine ⟨?_, m.nodup.sublist ((List.filter_sublist m.entries).map Prod.fst)⟩
    intro h
    rcases List.mem_map.1 h with ⟨p, hp, hk⟩
    have hp2 := (List.mem_filter.1 hp).2
    simp [hk] at hp2⟩

/-- The keys of the map. -/
def keys (m : GoMap β) : List String := m.entries.map Prod.fst

end GoMap

/-! ## Data model -/

/-- Modelled from the spec: the value types of a signature (their Go
declaration, `ValueType`, is in a file of the package that is not at hand). -/
inductive ValueType
  | I32
  | I64
  | F32
  | F64
  deriving DecidableEq, Repr

/-- The constant `ValueTypeI32`. -/
def ValueTypeI32 : ValueType := ValueType.I32

/-- Modelled from the spec: the form tag of a function signature (`TypeFunc`,
the byte `0x60` of the binary format). -/
def TypeFunc : Nat := 0x60

/-- Modelled from the spec: the numeric kinds of the known sections. -/
def SectionIDType : Nat := 1

/-- Modelled from the spec: the numeric kind of the Import section. -/
def SectionIDImport : Nat := 2

/-- The struct `RawSection`: the byte bounds, kind and raw payload of a section. -/
structure RawSection where
  Start : Nat
  End : Nat
  ID : Nat
  Bytes : List Nat
  deriving DecidableEq, Repr

/-- The struct `FunctionSig`: a form tag, parameter types and return types. -/
structure FunctionSig where
  Form : Nat
  ParamTypes : List ValueType
  ReturnTypes : List ValueType
  deriving DecidableEq, Repr

/-- Modelled from the spec: the kind of an export (`External`). -/
inductive External
  | Function
  | Table
  | Memory
  | Global
  deriving DecidableEq, Repr

/-- The constant `ExternalFunction`. -/
def ExternalFunction : External := External.Function

/-- Modelled from the spec: the kind of an import; a function import carries
the index of its type, the other kinds carry their raw descriptor. -/
inductive Import
  | FuncImport (typeIndex : Nat)
  | TableImport (desc : List Nat)
  | MemoryImport (desc : List Nat)
  | GlobalVarImport (desc : List Nat)
  deriving DecidableEq, Repr

/-- The struct `ImportEntry`; its field `Type` is `Type_` here. -/
structure ImportEntry where
  ModuleName : String
  FieldName : String
  Type_ : Import
  deriving DecidableEq, Repr

/-- The struct `ExportEntry`: exported name, kind, index in the space of that kind. -/
structure ExportEntry where
  FieldStr : String
  Kind : External
  Index : Nat
  deriving DecidableEq, Repr

/-- The struct `ElementSegment`: table index, offset expression, function indices. -/
structure ElementSegment where
  Index : Nat
  Offset : List Nat
  Elems : List Nat
  deriving DecidableEq, Repr

/-- The struct `FunctionBody`, as far as the program reads it. -/
structure FunctionBody where
  Code : List Nat
  deriving DecidableEq, Repr

/-- The struct `SectionTypes`. -/
structure SectionTypes where
  Raw : RawSection
  Entries : List FunctionSig
  deriving DecidableEq, Repr

/-- The struct `SectionImports`. -/
structure SectionImports where
  Raw : RawSection
  Entries : List ImportEntry
  deriving DecidableEq, Repr

/-- The struct `SectionFunctions`: the type index of every module-defined function. -/
structure SectionFunctions where
  Raw : RawSection
  Types : List Nat
  deriving DecidableEq, Repr

/-- The struct `SectionExports`: the exports keyed by name. -/
structure SectionExports where
  Raw : RawSection
  Entries : GoMap ExportEntry

/-- The struct `SectionStartFunction`. -/
structure SectionStartFunction where
  Raw : RawSection
  Index : Nat
  deriving DecidableEq, Repr

/-- The struct `SectionElements`. -/
structure SectionElements where
  Raw : RawSection
  Entries : List ElementSegment
  deriving DecidableEq, Repr

/-- The struct `SectionCode`. -/
structure SectionCode where
  Raw : RawSection
  Bodies : List FunctionBody
  deriving DecidableEq, Repr

/-- An element of `Module.Sections`: a pointer to one of the typed sections
(shared with the typed field of the module) or to a custom section. -/
inductive SectionRef
  | custom (i : Nat)
  | types
  | imports
  | functions
  | tables
  | memories
  | globals
  | exports
  | start
  | elements
  | code
  | data
  deriving DecidableEq, Repr

/-- The struct `Module`, as `DecodeModule` fills it: the index spaces are left
empty by decoding and are not part of the model. -/
structure Module where
  Version : Nat
  Sections : List SectionRef
  Types : Option SectionTypes
  Import : Option SectionImports
  Function : Option SectionFunctions
  Table : Option RawSection
  Memory : Option RawSection
  Global : Option RawSection
  Export : Option SectionExports
  Start : Option SectionStartFunction
  Elements : Option SectionElements
  Code : Option SectionCode
  Data : Option RawSection
  Customs : List RawSection

/-- The run-time panics of Go that the program can raise. -/
inductive Panic
  | nilPointerDereference
  | indexOutOfRange
  | sliceBoundsOutOfRange
  deriving DecidableEq, Repr

/-- The errors `DecodeModule` and `DecodeModuleAddGas` return. -/
inductive DecodeError
  | ErrInvalidMagic
  | unknownBinaryVersion (v : Nat)
  | read (code : Nat)
  deriving DecidableEq, Repr

/-- How a call ends in failure: a returned error or a panic. -/
inductive Failure
  | error (e : DecodeError)
  | panic (p : Panic)
  deriving DecidableEq, Repr

/-- The constant `Magic`. -/
def Magic : Nat := 0x6d736100

/-- The constant `Version`. -/
def Version : Nat := 0x1

/-! ## The instrumentation of `DecodeModuleAddGas` -/

/-- The test of the type loop:
`len(v.ParamTypes) == 1 && v.ParamTypes[0] == ValueTypeI32 && len(v.ReturnTypes) == 0`. -/
def isGasSig (v : FunctionSig) : Bool :=
  v.ParamTypes.length == 1 && v.ParamTypes.head? == some ValueTypeI32 &&
    v.ReturnTypes.length == 0

/-- The loop `for k, v := range m.Types.Entries` with its `break`: the index
of the first entry that passes the test, counted from `k`. -/
def findGasSig : List FunctionSig → Nat → Option Nat
  | [], _ => none
  | v :: rest, k => if isGasSig v then some k else findGasSig rest (k + 1)

/-- The signature appended when no entry passes the test. -/
def gasSig : FunctionSig :=
  { Form := TypeFunc, ParamTypes := [ValueTypeI32], ReturnTypes := [] }

/-- The import entry of the gas function with type index `uint32(tPos)`. -/
def gasImport (tPos : Nat) : ImportEntry :=
  { ModuleName := "env", FieldName := "addgas", Type_ := Import.FuncImport (tPos % 2 ^ 32) }

/-- The body of the export loop: `if v.Kind == ExternalFunction { v.Index++ }`. -/
def shiftExport (v : ExportEntry) : ExportEntry :=
  if v.Kind = ExternalFunction then { v with Index := (v.Index + 1) % 2 ^ 32 } else v

/-- The export loop: `mp := make(...)`, then `mp[k] = v` for every entry, here in
the order of the key/value list. -/
def shiftExports (es : GoMap ExportEntry) : GoMap ExportEntry :=
  es.entries.foldl (fun mp kv => mp.set kv.1 (shiftExport kv.2)) GoMap.empty

/-- The element loop: `m.Elements.Entries[0].Elems[i]++` for every `i`. -/
def shiftElems (seg : ElementSegment) : ElementSegment :=
  { seg with Elems := seg.Elems.map (fun x => (x + 1) % 2 ^ 32) }

namespace DecodeModuleAddGas

/-- Lines 163-195: find or append the signature of the gas function; a missing
Types section is created and put first in the section sequence. Returns the
module and `tPos`. -/
def reserveType (m : Module) : Module × Nat :=
  match m.Types with
  | some t =>
    match findGasSig t.Entries 0 with
    | some k => (m, k)
    | none =>
      ({ m with Types := some { t with Entries := t.Entries ++ [gasSig] } },
        (t.Entries ++ [gasSig]).length - 1)
  | none =>
    ({ m with
        Types := some { Raw := { Start := 0, End := 0, ID := SectionIDType, Bytes := [] },
                        Entries := [] ++ [gasSig] },
        Sections := SectionRef.types :: m.Sections },
      (([] : List FunctionSig) ++ [gasSig]).length - 1)

/-- Lines 197-211: a missing Import section is created and put at index 1 of
the section sequence; `m.Sections[1:]` panics on an empty sequence. -/
def ensureImport (m : Module) : Except Panic (Module × SectionImports) :=
  match m.Import with
  | some imp => Except.ok (m, imp)
  | none =>
    match m.Sections with
    | [] => Except.error Panic.sliceBoundsOutOfRange
    | s :: temp =>
      let imp : SectionImports :=
        { Raw := { Start := 0, End := 0, ID := SectionIDImport, Bytes := [] }, Entries := [] }
      Except.ok ({ m with Import := some imp, Sections := [s] ++ [SectionRef.imports] ++ temp },
        imp)

/-- Lines 221-228: the export loop; `m.Export.Entries` panics on a nil `m.Export`. -/
def exportStep (m : Module) : Except Panic Module :=
  match m.Export with
  | none => Except.error Panic.nilPointerDereference
  | some e => Except.ok { m with Export := some { e with Entries := shiftExports e.Entries } }

/-- Lines 230-234: the element loop over `m.Elements.Entries[0]`; the index
expression panics when the section has no segment. -/
def elementStep (m : Module) : Except Panic Module :=
  match m.Elements with
  | none => Except.ok m
  | some el =>
    match el.Entries with
    | [] => Except.error Panic.indexOutOfRange
    | seg :: rest =>
      Except.ok { m with Elements := some { el with Entries := shiftElems seg :: rest } }

/-- Lines 163-236 of `DecodeModuleAddGas`: everything after section decoding.
Returns the module and `len(m.Import.Entries) - 1`. -/
def transform (m : Module) : Except Panic (Module × Int) :=
  match ensureImport (reserveType m).1 with
  | Except.error p => Except.error p
  | Except.ok (m1, imp) =>
    let entries := imp.Entries ++ [gasImport (reserveType m).2]
    let m2 : Module := { m1 with Import := some { imp with Entries := entries } }
    match exportStep m2 with
    | Except.error p => Except.error p
    | Except.ok m3 =>
      match elementStep m3 with
      | Except.error p => Except.error p
      | Except.ok m4 => Except.ok (m4, (entries.length : Int) - 1)

end DecodeModuleAddGas

/-- Modelled from the spec: `readU32`, four bytes read as a little-endian
`uint32`; a short input is a read error. -/
def readU32 : List Nat → Except DecodeError (Nat × List Nat)
  | b0 :: b1 :: b2 :: b3 :: rest =>
    Except.ok (b0 % 256 + 256 * (b1 % 256) + 65536 * (b2 % 256) + 16777216 * (b3 % 256), rest)
  | _ => Except.error (DecodeError.read 0)

/-- The function `DecodeModule`; the section reader (`readSections`, in a file
of the package that is not at hand) is a parameter: it fills a module with the
given version from the remaining bytes, or returns a read error. -/
def DecodeModule (readSections : Nat → List Nat → Except DecodeError Module)
    (r : List Nat) : Except DecodeError Module :=
  match readU32 r with
  | Except.error e => Except.error e
  | Except.ok (magic, r1) =>
    if magic ≠ Magic then Except.error DecodeError.ErrInvalidMagic
    else
      match readU32 r1 with
      | Except.error e => Except.error e
      | Except.ok (version, r2) =>
        if version ≠ Version then Except.error (DecodeError.unknownBinaryVersion version)
        else readSections version r2

/-- The function `DecodeModuleAddGas`: the header checks and section decoding
of `DecodeModule`, then the instrumentation. -/
def DecodeModuleAddGas (readSections : Nat → List Nat → Except DecodeError Module)
    (r : List Nat) : Except Failure (Module × Int) :=
  match readU32 r with
  | Except.error e => Except.error (Failure.error e)
  | Except.ok (magic, r1) =>
    if magic ≠ Magic then Except.error (Failure.error DecodeError.ErrInvalidMagic)
    else
      match readU32 r1 with
      | Except.error e => Except.error (Failure.error e)
      | Except.ok (version, r2) =>
        if version ≠ Version then
          Except.error (Failure.error (DecodeError.unknownBinaryVersion version))
        else
          match readSections version r2 with
          | Except.error e => Except.error (Failure.error e)
          | Except.ok m =>
            match DecodeModuleAddGas.transform m with
            | Except.error p => Except.error (Failure.panic p)
            | Except.ok res => Except.ok res

/-! ## The command `wasm-addgas` -/

/-- The argument of a `log.Fatal` call of `main`: the error of a failed step,
or the nil error that `main` passes when the module has no Code section. -/
inductive FatalArg
  | nilError
  | io (msg : String)
  | decode (e : DecodeError)
  | disasm (msg : String)
  | asm (msg : String)
  deriving DecidableEq, Repr

/-- How a run of `main` ends: normally, in `log.Fatal` (exit status 1), or in
a panic. -/
inductive Exit
  | success
  | fatal (arg : FatalArg)
  | panic (p : Panic)
  deriving DecidableEq, Repr

/-- A run of `main`: how it ends, and the bytes it passes to
`ioutil.WriteFile`, if it gets as far as that call. -/
structure Run where
  exit : Exit
  output : Option (List Nat)
  deriving DecidableEq, Repr

/-- Lines 31-41 of `main`: the loop over `m.Code.Bodies`, first body first.
The functions `disasm.DisassembleAddGas` and `disasm.Assemble` (in files of
the repository that are not at hand) are parameters; a failed call ends the
run in `log.Fatal`. -/
def bodyLoop {Instr : Type}
    (DisassembleAddGas : List Nat → Int → Except String (List Instr))
    (Assemble : List Instr → Except String (List Nat)) (pos : Int) :
    List FunctionBody → Except FatalArg (List FunctionBody)
  | [] => Except.ok []
  | b :: rest =>
    match DisassembleAddGas b.Code pos with
    | Except.error err => Except.error (FatalArg.disasm err)
    | Except.ok d =>
      match Assemble d with
      | Except.error err => Except.error (FatalArg.asm err)
      | Except.ok code =>
        match bodyLoop DisassembleAddGas Assemble pos rest with
        | Except.error arg => Except.error arg
        | Except.ok rest' => Except.ok ({ b with Code := code } :: rest')

/-- The function `main` of `cmd/wasm-addgas`. The result of `ioutil.ReadFile`,
the section reader, the two functions of package `disasm`, `wasm.EncodeModule`
(the bytes it leaves in the buffer and the error it returns) and
`ioutil.WriteFile` are parameters. The error of `EncodeModule` is assigned to
`err` and overwritten by the next statement. -/
def main {Instr : Type}
    (ReadFile : Except String (List Nat))
    (readSections : Nat → List Nat → Except DecodeError Module)
    (DisassembleAddGas : List Nat → Int → Except String (List Instr))
    (Assemble : List Instr → Except String (List Nat))
    (EncodeModule : Module → List Nat × Option String)
    (WriteFile : List Nat → Option String) : Run :=
  match ReadFile with
  | Except.error err => ⟨Exit.fatal (FatalArg.io err), none⟩
  | Except.ok raw =>
    match DecodeModuleAddGas readSections raw with
    | Except.error (Failure.error err) => ⟨Exit.fatal (FatalArg.decode err), none⟩
    | Except.error (Failure.panic p) => ⟨Exit.panic p, none⟩
    | Except.ok (m, pos) =>
      match m.Code with
      | none => ⟨Exit.fatal FatalArg.nilError, none⟩
      | some code =>
        match bodyLoop DisassembleAddGas Assemble pos code.Bodies with
        | Except.error arg => ⟨Exit.fatal arg, none⟩
        | Except.ok bodies =>
          let m1 : Module := { m with Code := some { code with Bodies := bodies } }
          let buf := (EncodeModule m1).1
          match DecodeModule readSections buf with
          | Except.error err => ⟨Exit.fatal (FatalArg.decode err), none⟩
          | Except.ok _ =>
            match WriteFile buf with
            | some err => ⟨Exit.fatal (FatalArg.io err), some buf⟩
            | none => ⟨Exit.success, some buf⟩

/-! ## Notions of the specification -/

/-- The entries of the Import section; none when the section is absent. -/
def Module.importEntries (m : Module) : List ImportEntry :=
  match m.Import with
  | some imp => imp.Entries
  | none => []

/-- The entries of the Types section; none when the section is absent. -/
def Module.typeEntries (m : Module) : List FunctionSig :=
  match m.Types with
  | some t => t.Entries
  | none => []

/-- Whether an import entry is of kind function. -/
def ImportEntry.isFunc (i : ImportEntry) : Bool :=
  match i.Type_ with
  | Import.FuncImport _ => true
  | _ => false

/-- Modelled from the spec: the number of function imports, the first part of
the function index space. -/
def funcImportCount (l : List ImportEntry) : Nat := (l.filter ImportEntry.isFunc).length

/-- Modelled from the spec: the size of the function index space, that is the
function imports followed by the module-defined functions. -/
def Module.funcSpaceSize (m : Module) : Nat :=
  funcImportCount m.importEntries +
    (match m.Function with
     | some f => f.Types.length
     | none => 0)

/-- Modelled from the spec: what the section decoder (not at hand) guarantees
of the module it returns, as far as the instrumentation relies on it. A
non-nil `Types` pointer refers to an element of the section sequence, and the
number of type entries is below `2 ^ 32` (a type index is a `uint32`, and the
entry count is read as a 32-bit integer). -/
def Decoded (m : Module) : Prop :=
  match m.Types with
  | some t => SectionRef.types ∈ m.Sections ∧ t.Entries.length < 2 ^ 32
  | none => True

instance (m : Module) : Decidable (Decoded m) := by
  unfold Decoded
  split <;> infer_instance

/-- The element loop does not panic: there is no Elements section, or it has
a first segment. -/
def Module.elementsIndexable (m : Module) : Prop :=
  match m.Elements with
  | some el => el.Entries ≠ []
  | none => True

instance (m : Module) : Decidable m.elementsIndexable := by
  unfold Module.elementsIndexable
  split <;> infer_instance

/-- Modelled from the spec: how `wasm.EncodeModule` and the section reader (both
in files that are not at hand) fit together when an encoding fails. The
encoder emits, section by section, the kind byte, the payload length and the
payload; a failed encoding has stopped inside a section, and the section
reader does not accept a section that is cut short (`MalformedSection`,
`UnexpectedEnd`): the bytes a failed encoding leaves in the buffer do not
decode. -/
def FailedEncodingRejected (readSections : Nat → List Nat → Except DecodeError Module)
    (EncodeModule : Module → List Nat × Option String) : Prop :=
  ∀ m buf err, EncodeModule m = (buf, some err) →
    ∃ e, DecodeModule readSections buf = Except.error e

/-! ## Example modules -/

/-- A decoded module without any section. -/
def emptyModule : Module :=
  { Version := 1, Sections := [], Types := none, Import := none, Function := none,
    Table := none, Memory := none, Global := none, Export := none, Start := none,
    Elements := none, Code := none, Data := none, Customs := [] }

/-- The raw part of a decoded section of kind `id`, its bytes left out. -/
def rawOf (id : Nat) : RawSection := { Start := 0, End := 0, ID := id, Bytes := [] }

/-- The signature without parameters and results. -/
def unitSig : FunctionSig := { Form := TypeFunc, ParamTypes := [], ReturnTypes := [] }

/-- The exports `main` (function 0) and `memory` (memory 0). -/
def mainExports : SectionExports :=
  { Raw := rawOf 7,
    Entries := ⟨[("main", ⟨"main", External.Function, 0⟩),
                 ("memory", ⟨"memory", External.Memory, 0⟩)], by decide⟩ }

/-- A module with one function of type `() -> ()`, body `end`, exported as
`main`, and an exported memory. -/
def mainModule : Module :=
  { emptyModule with
    Sections := [SectionRef.types, SectionRef.functions, SectionRef.memories,
      SectionRef.exports, SectionRef.code]
    Types := some { Raw := rawOf 1, Entries := [unitSig] }
    Function := some { Raw := rawOf 3, Types := [0] }
    Memory := some (rawOf 5)
    Export := some mainExports
    Code := some { Raw := rawOf 10, Bodies := [{ Code := [0x0b] }] } }

/-- A module that imports its memory (`env.memory`) and defines one function,
exported as `main`. -/
def memoryImportModule : Module :=
  { mainModule with
    Sections := [SectionRef.types, SectionRef.imports, SectionRef.functions,
      SectionRef.exports, SectionRef.code]
    Import := some { Raw := rawOf 2, Entries := [⟨"env", "memory", Import.MemoryImport [0, 1]⟩] }
    Memory := none
    Export := some { Raw := rawOf 7,
                     Entries := ⟨[("main", ⟨"main", External.Function, 0⟩)], by decide⟩ } }

/-- The exports `log` (function 0, an import) and `run` (function 1). -/
def reexportExports : SectionExports :=
  { Raw := rawOf 7,
    Entries := ⟨[("log", ⟨"log", External.Function, 0⟩),
                 ("run", ⟨"run", External.Function, 1⟩)], by decide⟩ }

/-- A module with one function import (`env.log`, function 0), exported again
as `log`, and one defined function (function 1), exported as `run`. -/
def reexportModule : Module :=
  { mainModule with
    Sections := [SectionRef.types, SectionRef.imports, SectionRef.functions,
      SectionRef.exports, SectionRef.code]
    Import := some { Raw := rawOf 2, Entries := [⟨"env", "log", Import.FuncImport 0⟩] }
    Memory := none
    Export := some reexportExports }

/-- A module with one function and two element segments, each holding
function 0. -/
def twoSegmentModule : Module :=
  { mainModule with
    Sections := [SectionRef.types, SectionRef.functions, SectionRef.tables,
      SectionRef.memories, SectionRef.exports, SectionRef.elements, SectionRef.code]
    Table := some (rawOf 4)
    Elements := some { Raw := rawOf 9,
                       Entries := [⟨0, [0x41, 0, 0x0b], [0]⟩, ⟨0, [0x41, 1, 0x0b], [0]⟩] } }

/-- A module with one function, function 0, which is also its start function. -/
def startModule : Module :=
  { mainModule with
    Sections := [SectionRef.types, SectionRef.functions, SectionRef.memories,
      SectionRef.exports, SectionRef.start, SectionRef.code]
    Start := some { Raw := rawOf 8, Index := 0 } }

/-- A module whose Types section holds `(i32) -> ()` at the indices 1 and 2. -/
def gasTypedModule : Module :=
  { mainModule with
    Types := some { Raw := rawOf 1, Entries := [unitSig, gasSig, gasSig] } }

/-- A module that only defines and exports a memory: it has no Types section. -/
def memoryOnlyModule : Module :=
  { emptyModule with
    Sections := [SectionRef.memories, SectionRef.exports]
    Memory := some (rawOf 5)
    Export := some { Raw := rawOf 7,
                     Entries := ⟨[("memory", ⟨"memory", External.Memory, 0⟩)], by decide⟩ } }

/-- The eight bytes of a module without sections: the magic number and the
version, both little-endian. -/
def wasmHeader : List Nat := [0x00, 0x61, 0x73, 0x6d, 0x01, 0x00, 0x00, 0x00]

/-- A section reader that decodes the rest of every input to the module `m`. -/
def constReader (m : Module) : Nat → List Nat → Except DecodeError Module :=
  fun version _ => Except.ok { m with Version := version }

/-- A module whose first section is a custom section, before the Types
section; it has no Import section. -/
def customFirstModule : Module :=
  { mainModule with
    Sections := [SectionRef.custom 0, SectionRef.types, SectionRef.functions,
      SectionRef.memories, SectionRef.exports, SectionRef.code]
    Customs := [rawOf 0] }

/-- A module with an Export section and an Elements section without any
segment. -/
def noSegmentModule : Module :=
  { mainModule with
    Sections := [SectionRef.types, SectionRef.functions, SectionRef.tables,
      SectionRef.memories, SectionRef.exports, SectionRef.elements, SectionRef.code]
    Table := some (rawOf 4)
    Elements := some { Raw := rawOf 9, Entries := [] } }

/-- A module with two functions, of bodies `nop end` and `end`. -/
def twoBodyModule : Module :=
  { mainModule with
    Function := some { Raw := rawOf 3, Types := [0, 0] }
    Code := some { Raw := rawOf 10, Bodies := [{ Code := [0x01, 0x0b] }, { Code := [0x0b] }] } }

/-- A stand-in for `DisassembleAddGas`, on bytes as instructions: it puts the
two bytes of `call pos` in front of the body. -/
def prependCall (code : List Nat) (pos : Int) : Except String (List Nat) :=
  Except.ok (0x10 :: pos.toNat :: code)

/-- A stand-in for `DisassembleAddGas` that fails on a body that starts with
`nop`. -/
def rejectNop (code : List Nat) (pos : Int) : Except String (List Nat) :=
  match code with
  | 0x01 :: _ => Except.error "nop"
  | _ => prependCall code pos

/-- A stand-in for `Assemble`, on bytes as instructions. -/
def emitBytes (d : List Nat) : Except String (List Nat) := Except.ok d

/-- A section reader that decodes an input without further bytes to the module
`m` and reports a read error on any further byte. -/
def endReader (m : Module) : Nat → List Nat → Except DecodeError Module :=
  fun version rest =>
    match rest with
    | [] => Except.ok { m with Version := version }
    | _ :: _ => Except.error (DecodeError.read 1)

/-- A stand-in for `EncodeModule` that fails inside the first section: it has
written the header and the kind byte of the section, not its length or
payload. -/
def truncatingEncoder (_ : Module) : List Nat × Option String :=
  (wasmHeader ++ [SectionIDType], some "encoding failed")

/-! ## Theorems -/

/-! ## Go maps -/

namespace GoMap

variable {β : Type}

theorem lookup_cons_self (k : String) (b : β) (l : List (String × β)) :
    List.lookup k ((k, b) :: l) = some b := by
  simp [List.lookup]

theorem lookup_cons_ne {k a : String} (hne : k ≠ a) (b : β) (l : List (String × β)) :
    List.lookup k ((a, b) :: l) = List.lookup k l := by
  have h' : (k == a) = false := by simpa using hne
  simp only [List.lookup, h']

theorem dropKey_cons_self (k : String) (b : β) (l : List (String × β)) :
    dropKey k ((k, b) :: l) = dropKey k l := by
  simp [dropKey, List.filter_cons]

theorem dropKey_cons_ne {k a : String} (hne : a ≠ k) (b : β) (l : List (String × β)) :
    dropKey k ((a, b) :: l) = (a, b) :: dropKey k l := by
  simp [dropKey, List.filter_cons, hne]

theorem lookup_dropKey_self (k : String) (l : List (String × β)) :
    (dropKey k l).lookup k = none := by
  induction l with
  | nil => rfl
  | cons p l ih =>
    obtain ⟨a, b⟩ := p
    by_cases h : a = k
    · subst h
      rw [dropKey_cons_self]
      exact ih
    · rw [dropKey_cons_ne h, lookup_cons_ne (Ne.symm h)]
      exact ih

theorem lookup_dropKey_ne {k k' : String} (hne : k' ≠ k) (l : List (String × β)) :
    (dropKey k l).lookup k' = l.lookup k' := by
  induction l with
  | nil => rfl
  | cons p l ih =>
    obtain ⟨a, b⟩ := p
    by_cases h : a = k
    · subst h
      rw [dropKey_cons_self, lookup_cons_ne hne]
      exact ih
    · rw [dropKey_cons_ne h]
      by_cases h2 : k' = a
      · subst h2
        rw [lookup_cons_self, lookup_cons_self]
      · rw [lookup_cons_ne h2, lookup_cons_ne h2]
        exact ih

theorem get_empty (k : String) : (empty : GoMap β).get k = none := rfl

theorem get_set_self (m : GoMap β) (k : String) (v : β) : (m.set k v).get k = some v := by
  unfold get set
  exact lookup_cons_self k v _

theorem get_set_ne (m : GoMap β) {k k' : String} (v : β) (hne : k' ≠ k) :
    (m.set k v).get k' = m.get k' := by
  unfold get set
  show List.lookup k' ((k, v) :: dropKey k m.entries) = _
  rw [lookup_cons_ne hne, lookup_dropKey_ne hne]

theorem lookup_eq_none_of_not_mem (k : String) (l : List (String × β))
    (h : k ∉ l.map Prod.fst) : l.lookup k = none := by
  induction l with
  | nil => rfl
  | cons p l ih =>
    obtain ⟨a, b⟩ := p
    rw [List.map_cons, List.mem_cons, not_or] at h
    rw [lookup_cons_ne h.1]
    exact ih h.2

theorem mem_keys_iff (m : GoMap β) (k : String) : k ∈ m.keys ↔ (m.get k).isSome = true := by
  obtain ⟨l, hl⟩ := m
  simp only [keys, get]
  clear hl
  induction l with
  | nil => simp
  | cons p l ih =>
    obtain ⟨a, b⟩ := p
    by_cases h : k = a
    · subst h
      rw [lookup_cons_self]
      simp
    · rw [lookup_cons_ne h, List.map_cons, List.mem_cons, ← ih]
      simp [h]

end GoMap

/-- What the export loop leaves in the new map, for any starting map and any
key/value list without repeated keys. -/
theorem foldl_set_get (f : ExportEntry → ExportEntry) (l : List (String × ExportEntry))
    (hl : (l.map Prod.fst).Nodup) (acc : GoMap ExportEntry) (k : String) :
    (l.foldl (fun mp kv => mp.set kv.1 (f kv.2)) acc).get k =
      match l.lookup k with
      | some v => some (f v)
      | none => acc.get k := by
  induction l generalizing acc with
  | nil => rfl
  | cons p l ih =>
    obtain ⟨a, b⟩ := p
    rw [List.map_cons, List.nodup_cons] at hl
    rw [List.foldl_cons, ih hl.2]
    by_cases h : k = a
    · subst h
      rw [GoMap.lookup_eq_none_of_not_mem k l hl.1, GoMap.lookup_cons_self]
      exact GoMap.get_set_self acc k (f b)
    · rw [GoMap.lookup_cons_ne h]
      cases l.lookup k with
      | none => exact GoMap.get_set_ne acc (f b) h
      | some v => rfl

/-- In a key/value list without repeated keys, a lookup finds exactly the
pairs of the list. -/
theorem lookup_eq_some_iff_mem (l : List (String × ExportEntry))
    (hl : (l.map Prod.fst).Nodup) (k : String) (v : ExportEntry) :
    l.lookup k = some v ↔ (k, v) ∈ l := by
  induction l with
  | nil => simp
  | cons p l ih =>
    obtain ⟨a, b⟩ := p
    rw [List.map_cons, List.nodup_cons] at hl
    by_cases h : k = a
    · subst h
      rw [GoMap.lookup_cons_self, List.mem_cons]
      constructor
      · intro hv
        cases hv
        exact Or.inl rfl
      · rintro (hv | hv)
        · cases hv
          rfl
        · exact absurd (List.mem_map_of_mem Prod.fst hv) hl.1
    · rw [GoMap.lookup_cons_ne h, List.mem_cons, ih hl.2]
      constructor
      · exact Or.inr
      · rintro (hv | hv)
        · cases hv
          exact absurd rfl h
        · exact hv

/-- Go does not fix the order in which `range` visits a map: whatever the
order, the export loop builds the same map. -/
theorem export_loop_order (es : GoMap ExportEntry) (l : List (String × ExportEntry))
    (hp : l.Perm es.entries) (k : String) :
    (l.foldl (fun mp kv => mp.set kv.1 (shiftExport kv.2)) GoMap.empty).get k =
      (shiftExports es).get k := by
  have hl : (l.map Prod.fst).Nodup := (hp.map Prod.fst).nodup_iff.2 es.nodup
  unfold shiftExports
  rw [foldl_set_get shiftExport l hl, foldl_set_get shiftExport es.entries es.nodup]
  have hsame : l.lookup k = es.entries.lookup k := by
    cases hlk : es.entries.lookup k with
    | some v =>
      rw [lookup_eq_some_iff_mem es.entries es.nodup] at hlk
      rw [lookup_eq_some_iff_mem l hl]
      exact hp.mem_iff.2 hlk
    | none =>
      cases hlk' : l.lookup k with
      | none => rfl
      | some v =>
        rw [lookup_eq_some_iff_mem l hl] at hlk'
        have hmem := (lookup_eq_some_iff_mem es.entries es.nodup k v).2 (hp.mem_iff.1 hlk')
        rw [hlk] at hmem
        cases hmem
  rw [hsame]

/-- The export map after the loop: every entry of the decoded map, shifted. -/
theorem shiftExports_get (es : GoMap ExportEntry) (k : String) :
    (shiftExports es).get k = (es.get k).map shiftExport := by
  unfold shiftExports
  rw [foldl_set_get shiftExport es.entries es.nodup]
  unfold GoMap.get
  cases es.entries.lookup k <;> rfl

theorem shiftExports_keys (es : GoMap ExportEntry) (k : String) :
    k ∈ (shiftExports es).keys ↔ k ∈ es.keys := by
  rw [GoMap.mem_keys_iff, GoMap.mem_keys_iff, shiftExports_get]
  cases es.get k <;> simp

/-! ## Decoding, then instrumenting -/

/-- On an input that `DecodeModule` decodes to `m`, `DecodeModuleAddGas`
ends as the instrumentation of `m` does. -/
theorem DecodeModuleAddGas_of_decoded
    (readSections : Nat → List Nat → Except DecodeError Module) (r : List Nat) (m : Module)
    (h : DecodeModule readSections r = Except.ok m) :
    DecodeModuleAddGas readSections r =
      match DecodeModuleAddGas.transform m with
      | Except.error p => Except.error (Failure.panic p)
      | Except.ok res => Except.ok res := by
  unfold DecodeModule at h
  unfold DecodeModuleAddGas
  cases h1 : readU32 r with
  | error e => simp [h1] at h
  | ok a =>
    obtain ⟨magic, r1⟩ := a
    simp only [h1] at h ⊢
    by_cases hm : magic ≠ Magic
    · simp [hm] at h
    · simp only [hm, if_false] at h ⊢
      cases h2 : readU32 r1 with
      | error e => simp [h2] at h
      | ok b =>
        obtain ⟨version, r2⟩ := b
        simp only [h2] at h ⊢
        by_cases hv : version ≠ Version
        · simp [hv] at h
        · simp only [hv, if_false] at h ⊢
          rw [h]

/-! ## The instrumentation, field by field -/

namespace DecodeModuleAddGas

/-- The type step touches only `Types` and `Sections`. -/
theorem reserveType_fields (m : Module) :
    (reserveType m).1.Import = m.Import ∧ (reserveType m).1.Export = m.Export ∧
      (reserveType m).1.Elements = m.Elements ∧ (reserveType m).1.Function = m.Function ∧
      (reserveType m).1.Start = m.Start ∧ (reserveType m).1.Code = m.Code := by
  unfold reserveType
  split
  · split <;> simp
  · simp

/-- After the type step the section sequence of a decoded module is not empty. -/
theorem reserveType_sections (m : Module) (hd : Decoded m) :
    (reserveType m).1.Sections ≠ [] := by
  unfold Decoded at hd
  unfold reserveType
  split
  · rename_i t ht
    rw [ht] at hd
    have hne : m.Sections ≠ [] := List.ne_nil_of_mem hd.1
    split <;> simpa using hne
  · simp

/-- The import step succeeds on a non-empty section sequence and touches only
`Import` and `Sections`. -/
theorem ensureImport_ok (m : Module) (hs : m.Sections ≠ []) :
    ∃ m1 imp, ensureImport m = Except.ok (m1, imp) ∧ imp.Entries = m.importEntries ∧
      m1.Types = m.Types ∧ m1.Export = m.Export ∧ m1.Elements = m.Elements ∧
      m1.Function = m.Function ∧ m1.Start = m.Start ∧ m1.Code = m.Code := by
  unfold ensureImport Module.importEntries
  cases hI : m.Import with
  | some imp => exact ⟨m, imp, rfl, rfl, rfl, rfl, rfl, rfl, rfl, rfl⟩
  | none =>
    cases hS : m.Sections with
    | nil => exact absurd hS hs
    | cons s temp => exact ⟨_, _, rfl, rfl, rfl, rfl, rfl, rfl, rfl, rfl⟩

/-- The element step on a module whose element loop does not panic. -/
theorem elementStep_ok (m : Module) (hEl : m.elementsIndexable) :
    ∃ m', elementStep m = Except.ok m' ∧ m'.Types = m.Types ∧ m'.Import = m.Import ∧
      m'.Export = m.Export ∧ m'.Function = m.Function ∧ m'.Start = m.Start ∧
      m'.Code = m.Code ∧
      (m.Elements = none → m'.Elements = none) ∧
      (∀ el, m.Elements = some el → ∃ seg rest, el.Entries = seg :: rest ∧
        m'.Elements = some { el with Entries := shiftElems seg :: rest }) := by
  unfold Module.elementsIndexable at hEl
  unfold elementStep
  cases hE : m.Elements with
  | none => exact ⟨m, rfl, rfl, rfl, rfl, rfl, rfl, rfl, fun _ => hE, by simp⟩
  | some el =>
    rw [hE] at hEl
    cases hS : el.Entries with
    | nil => exact absurd hS hEl
    | cons seg rest =>
      refine ⟨{ m with Elements := some { el with Entries := shiftElems seg :: rest } },
        ?_, rfl, rfl, rfl, rfl, rfl, rfl, by simp, ?_⟩
      · simp only [hS]
      · intro el2 h2
        cases h2
        exact ⟨seg, rest, hS, rfl⟩

/-- The instrumentation returns on a decoded module that has an Export section
and whose element loop does not panic; the returned module and position,
field by field. -/
theorem transform_ok (m : Module) (e : SectionExports) (hd : Decoded m)
    (hE : m.Export = some e) (hEl : m.elementsIndexable) :
    ∃ m' imp', transform m = Except.ok (m', (m.importEntries.length : Int)) ∧
      m'.Types = (reserveType m).1.Types ∧
      m'.Import = some imp' ∧
      imp'.Entries = m.importEntries ++ [gasImport (reserveType m).2] ∧
      m'.Export = some { e with Entries := shiftExports e.Entries } ∧
      m'.Function = m.Function ∧ m'.Start = m.Start ∧ m'.Code = m.Code ∧
      (m.Elements = none → m'.Elements = none) ∧
      (∀ el, m.Elements = some el → ∃ seg rest, el.Entries = seg :: rest ∧
        m'.Elements = some { el with Entries := shiftElems seg :: rest }) := by
  obtain ⟨hrI, hrE, hrEl, hrF, hrS, hrC⟩ := reserveType_fields m
  obtain ⟨m1, imp, h1, himp, h1T, h1E, h1El, h1F, h1S, h1C⟩ :=
    ensureImport_ok (reserveType m).1 (reserveType_sections m hd)
  have himp2 : imp.Entries = m.importEntries := by
    rw [himp]
    unfold Module.importEntries
    rw [hrI]
  have hEl3 : Module.elementsIndexable
      { m1 with
        Import := some { imp with Entries := imp.Entries ++ [gasImport (reserveType m).2] },
        Export := some { e with Entries := shiftExports e.Entries } } := by
    unfold Module.elementsIndexable at hEl ⊢
    simp only [h1El, hrEl]
    exact hEl
  obtain ⟨m4, h4, h4T, h4I, h4E, h4F, h4S, h4C, h4n, h4s⟩ := elementStep_ok _ hEl3
  refine ⟨m4, _, ?_, ?_, h4I, ?_, h4E, ?_, ?_, ?_, ?_, ?_⟩
  · unfold transform
    rw [h1]
    simp only [exportStep, h1E, hrE, hE, h4]
    simp [himp2]
  · rw [h4T]
    exact h1T
  · simp [himp2]
  · rw [h4F]
    simp [h1F, hrF]
  · rw [h4S]
    simp [h1S, hrS]
  · rw [h4C]
    simp [h1C, hrC]
  · intro hn
    apply h4n
    simp [h1El, hrEl, hn]
  · intro el hel
    apply h4s
    simp [h1El, hrEl, hel]

/-- Without an Export section the export loop dereferences a nil pointer. -/
theorem transform_no_export (m : Module) (hd : Decoded m) (hE : m.Export = none) :
    transform m = Except.error Panic.nilPointerDereference := by
  obtain ⟨hrI, hrE, hrEl, hrF, hrS, hrC⟩ := reserveType_fields m
  obtain ⟨m1, imp, h1, himp, h1T, h1E, h1El, h1F, h1S, h1C⟩ :=
    ensureImport_ok (reserveType m).1 (reserveType_sections m hd)
  unfold transform
  rw [h1]
  simp only [exportStep, h1E, hrE, hE]

/-- With an Export section and an Elements section without segments, the
element loop indexes segment 0 out of range. -/
theorem transform_no_segment (m : Module) (e : SectionExports) (el : SectionElements)
    (hd : Decoded m) (hE : m.Export = some e) (hEl : m.Elements = some el)
    (hnil : el.Entries = []) :
    transform m = Except.error Panic.indexOutOfRange := by
  obtain ⟨hrI, hrE, hrEl, hrF, hrS, hrC⟩ := reserveType_fields m
  obtain ⟨m1, imp, h1, himp, h1T, h1E, h1El, h1F, h1S, h1C⟩ :=
    ensureImport_ok (reserveType m).1 (reserveType_sections m hd)
  unfold transform
  rw [h1]
  simp only [exportStep, elementStep, h1E, hrE, hE, h1El, hrEl, hEl, hnil]

/-- On a decoded module the instrumentation returns exactly when there is an
Export section and the element loop does not panic. -/
theorem transform_returns_iff (m : Module) (hd : Decoded m) :
    (∃ res, transform m = Except.ok res) ↔ m.Export ≠ none ∧ m.elementsIndexable := by
  constructor
  · rintro ⟨res, hres⟩
    constructor
    · intro hE
      rw [transform_no_export m hd hE] at hres
      cases hres
    · cases hE : m.Export with
      | none =>
        rw [transform_no_export m hd hE] at hres
        cases hres
      | some e =>
        unfold Module.elementsIndexable
        cases hEl : m.Elements with
        | none => trivial
        | some el =>
          intro hnil
          rw [transform_no_segment m e el hd hE hEl hnil] at hres
          cases hres
  · rintro ⟨hE, hEl⟩
    cases hE' : m.Export with
    | none => exact absurd hE' hE
    | some e =>
      obtain ⟨m', -, hok, -⟩ := transform_ok m e hd hE' hEl
      exact ⟨_, hok⟩

end DecodeModuleAddGas

/-! ## The type step -/

theorem isGasSig_iff (v : FunctionSig) :
    isGasSig v = true ↔ v.ParamTypes = [ValueType.I32] ∧ v.ReturnTypes = [] := by
  obtain ⟨form, ps, rs⟩ := v
  unfold isGasSig ValueTypeI32
  cases ps with
  | nil => simp
  | cons a ps =>
    cases ps with
    | nil => simp
    | cons b ps => simp

theorem findGasSig_none (l : List FunctionSig) (k : Nat) :
    findGasSig l k = none ↔ ∀ v ∈ l, isGasSig v = false := by
  induction l generalizing k with
  | nil => simp [findGasSig]
  | cons v l ih =>
    unfold findGasSig
    by_cases h : isGasSig v = true
    · simp [h]
    · simp [h, ih]

/-- The index found is that of the first entry that passes the test. -/
theorem findGasSig_some (l : List FunctionSig) (k j : Nat) (h : findGasSig l k = some j) :
    k ≤ j ∧ ∃ v, l[j - k]? = some v ∧ isGasSig v = true ∧
      ∀ i, i < j - k → ∀ s, l[i]? = some s → isGasSig s = false := by
  induction l generalizing k with
  | nil => simp [findGasSig] at h
  | cons v l ih =>
    unfold findGasSig at h
    by_cases hv : isGasSig v = true
    · simp only [hv, if_true, Option.some.injEq] at h
      subst h
      refine ⟨le_refl _, v, by simp, hv, ?_⟩
      intro i hi
      simp at hi
    · simp only [hv] at h
      obtain ⟨hle, w, hw, hgw, hmin⟩ := ih (k + 1) h
      have hjk : j - k = (j - (k + 1)) + 1 := by omega
      refine ⟨by omega, w, ?_, hgw, ?_⟩
      · rw [hjk, List.getElem?_cons_succ]
        exact hw
      · intro i hi s hs
        cases i with
        | zero =>
          simp only [List.getElem?_cons_zero, Option.some.injEq] at hs
          subst hs
          simpa using hv
        | succ i =>
          rw [List.getElem?_cons_succ] at hs
          exact hmin i (by omega) s hs

/-- The first entry that passes the test is the one found. -/
theorem findGasSig_first (l : List FunctionSig) (k i : Nat) (v : FunctionSig)
    (hv : l[i]? = some v) (hg : isGasSig v = true)
    (hmin : ∀ j, j < i → ∀ s, l[j]? = some s → isGasSig s = false) :
    findGasSig l k = some (k + i) := by
  induction l generalizing k i with
  | nil => simp at hv
  | cons w l ih =>
    unfold findGasSig
    cases i with
    | zero =>
      simp only [List.getElem?_cons_zero, Option.some.injEq] at hv
      subst hv
      simp [hg]
    | succ i =>
      have hw : isGasSig w = false := hmin 0 (Nat.succ_pos i) w (by simp)
      rw [List.getElem?_cons_succ] at hv
      have := ih (k + 1) i hv (fun j hj s hs => hmin (j + 1) (by omega) s (by simpa using hs))
      simp only [hw]
      rw [this]
      simp only [Bool.false_eq_true, if_false, Option.some.injEq]
      omega

namespace DecodeModuleAddGas

/-- The type step when an entry passes the test: nothing changes and `tPos` is
the first such index. -/
theorem reserveType_found (m : Module) (t : SectionTypes) (hT : m.Types = some t)
    (k : Nat) (hf : findGasSig t.Entries 0 = some k) : reserveType m = (m, k) := by
  unfold reserveType
  simp only [hT, hf]

/-- The type step when no entry passes the test: the signature of the gas
function is appended and `tPos` is its index. -/
theorem reserveType_appended (m : Module) (hf : findGasSig m.typeEntries 0 = none) :
    ∃ ty, (reserveType m).1.Types = some ty ∧ ty.Entries = m.typeEntries ++ [gasSig] ∧
      (reserveType m).2 = m.typeEntries.length := by
  unfold Module.typeEntries at hf ⊢
  unfold reserveType
  cases hT : m.Types with
  | none => exact ⟨_, rfl, rfl, rfl⟩
  | some t =>
    rw [hT] at hf
    simp only [hf]
    exact ⟨_, rfl, rfl, by simp⟩

/-- On a decoded module the number of type entries fits a `uint32`. -/
theorem typeEntries_lt (m : Module) (hd : Decoded m) : m.typeEntries.length < 2 ^ 32 := by
  unfold Decoded at hd
  unfold Module.typeEntries
  cases hT : m.Types with
  | none => simp
  | some t =>
    rw [hT] at hd
    exact hd.2

/-- The type step leaves a Types section whose entry at `tPos` passes the
test, and `tPos` fits a `uint32` on a decoded module. -/
theorem reserveType_spec (m : Module) (hd : Decoded m) :
    ∃ ty sig, (reserveType m).1.Types = some ty ∧ (reserveType m).2 < 2 ^ 32 ∧
      ty.Entries[(reserveType m).2]? = some sig ∧ isGasSig sig = true := by
  have hlen := typeEntries_lt m hd
  cases hf : findGasSig m.typeEntries 0 with
  | none =>
    obtain ⟨ty, hty, hent, hpos⟩ := reserveType_appended m hf
    refine ⟨ty, gasSig, hty, ?_, ?_, by decide⟩
    · rw [hpos]
      exact hlen
    · rw [hpos, hent]
      simp
  | some k =>
    cases hT : m.Types with
    | none =>
      unfold Module.typeEntries at hf
      rw [hT] at hf
      simp [findGasSig] at hf
    | some t =>
      have hf' : findGasSig t.Entries 0 = some k := by
        unfold Module.typeEntries at hf
        rw [hT] at hf
        exact hf
      have hlen' : t.Entries.length < 2 ^ 32 := by
        unfold Module.typeEntries at hlen
        rw [hT] at hlen
        exact hlen
      obtain ⟨-, v, hv, hg, -⟩ := findGasSig_some t.Entries 0 k hf'
      have hv' : t.Entries[k]? = some v := by simpa using hv
      have hlt : k < t.Entries.length := by
        rcases List.getElem?_eq_some_iff.1 hv' with ⟨hlt, -⟩
        exact hlt
      rw [reserveType_found m t hT k hf']
      exact ⟨t, v, hT, lt_trans hlt hlen', hv', hg⟩

end DecodeModuleAddGas

/-! ## Exports -/

/-- C1: on a decoded module with an Export section (the element loop not
panicking), `DecodeModuleAddGas` returns a module whose export map has the
same names, every function export has its index plus 1 as a `uint32`, and
every table, memory or global export is the decoded entry. -/
theorem export_indices_shifted (m : Module) (e : SectionExports) (hd : Decoded m)
    (hE : m.Export = some e) (hEl : m.elementsIndexable) :
    ∃ m' pos e', DecodeModuleAddGas.transform m = Except.ok (m', pos) ∧ m'.Export = some e' ∧
      (∀ k, k ∈ e'.Entries.keys ↔ k ∈ e.Entries.keys) ∧
      (∀ k v, e.Entries.get k = some v → v.Kind = External.Function →
        e'.Entries.get k = some { v with Index := (v.Index + 1) % 2 ^ 32 }) ∧
      (∀ k v, e.Entries.get k = some v →
        (v.Kind = External.Table ∨ v.Kind = External.Memory ∨ v.Kind = External.Global) →
        e'.Entries.get k = some v) := by
  obtain ⟨m', imp', hok, -, -, -, hE', -⟩ := DecodeModuleAddGas.transform_ok m e hd hE hEl
  refine ⟨m', _, _, hok, hE', ?_, ?_, ?_⟩
  · intro k
    exact shiftExports_keys e.Entries k
  · intro k v hk hv
    show (shiftExports e.Entries).get k = _
    rw [shiftExports_get, hk]
    simp [shiftExport, hv, ExternalFunction]
  · intro k v hk hv
    show (shiftExports e.Entries).get k = _
    rw [shiftExports_get, hk]
    have hne : v.Kind ≠ ExternalFunction := by
      unfold ExternalFunction
      rcases hv with h | h | h <;> rw [h] <;> decide
    simp [shiftExport, hne]

/-- C1 at the module `mainModule`: `main` moves from function 0 to function 1,
`memory` stays. -/
theorem export_indices_shifted_witness :
    Decoded mainModule ∧ mainModule.Export = some mainExports ∧ mainModule.elementsIndexable ∧
      ∃ m' pos e', DecodeModuleAddGas.transform mainModule = Except.ok (m', pos) ∧
        m'.Export = some e' ∧
        (∀ k, k ∈ e'.Entries.keys ↔ k ∈ mainExports.Entries.keys) ∧
        (∀ k v, mainExports.Entries.get k = some v → v.Kind = External.Function →
          e'.Entries.get k = some { v with Index := (v.Index + 1) % 2 ^ 32 }) ∧
        (∀ k v, mainExports.Entries.get k = some v →
          (v.Kind = External.Table ∨ v.Kind = External.Memory ∨ v.Kind = External.Global) →
          e'.Entries.get k = some v) :=
  ⟨by decide, rfl, by decide,
    export_indices_shifted mainModule mainExports (by decide) rfl (by decide)⟩

/-! ## The returned position -/

/-- The returned position is the number of import entries of any kind that the
decoded module has. -/
theorem position_eq_import_count (m : Module) (e : SectionExports) (hd : Decoded m)
    (hE : m.Export = some e) (hEl : m.elementsIndexable) :
    ∃ m', DecodeModuleAddGas.transform m = Except.ok (m', (m.importEntries.length : Int)) := by
  obtain ⟨m', -, hok, -⟩ := DecodeModuleAddGas.transform_ok m e hd hE hEl
  exact ⟨m', hok⟩

/-- C2, at a module that imports its memory: the module has no function import,
and the position returned is 1, the number of all its imports. -/
theorem position_with_memory_import :
    funcImportCount memoryImportModule.importEntries = 0 ∧
      ∃ m', DecodeModuleAddGas.transform memoryImportModule = Except.ok (m', 1) :=
  ⟨rfl, _, rfl⟩

/-- C3, at `reexportModule`, which has one function import (p = 1): the export
`log` of the imported function 0 (`env.log`) is moved to function 1, which in
the returned module is `env.addgas`, while `env.log` is still function 0. -/
theorem reexported_import_shifted :
    funcImportCount reexportModule.importEntries = 1 ∧
      reexportExports.Entries.get "log" = some ⟨"log", External.Function, 0⟩ ∧
      ∃ m' pos e', DecodeModuleAddGas.transform reexportModule = Except.ok (m', pos) ∧
        m'.importEntries = [⟨"env", "log", Import.FuncImport 0⟩,
          ⟨"env", "addgas", Import.FuncImport 1⟩] ∧
        m'.Export = some e' ∧
        e'.Entries.get "log" = some ⟨"log", External.Function, 1⟩ :=
  ⟨rfl, rfl, _, _, _, rfl, rfl, rfl, rfl⟩

/-! ## Element segments and the start function -/

/-- C4, at a module with two element segments holding function 0: the first
segment becomes `[1]`, the second is still `[0]`. -/
theorem second_segment_not_shifted :
    ∃ m' pos el', DecodeModuleAddGas.transform twoSegmentModule = Except.ok (m', pos) ∧
      m'.Elements = some el' ∧ el'.Entries.map ElementSegment.Elems = [[1], [0]] :=
  ⟨_, _, _, rfl, rfl, rfl⟩

/-- C5, at a module without imports whose start function is function 0: the
start index is still 0 in the returned module, where function 0 is the
gas import (position 0) and the former function 0 is function 1. -/
theorem start_index_not_shifted :
    funcImportCount startModule.importEntries = 0 ∧
      ∃ m' e', DecodeModuleAddGas.transform startModule = Except.ok (m', 0) ∧
        m'.Start = some { Raw := rawOf 8, Index := 0 } ∧
        m'.importEntries = [gasImport 1] ∧ m'.Export = some e' ∧
        e'.Entries.get "main" = some ⟨"main", External.Function, 1⟩ :=
  ⟨rfl, _, _, rfl, rfl, rfl, rfl, rfl⟩

/-! ## The gas import and its type -/

/-- C6: on a decoded module on which `DecodeModuleAddGas` returns (an Export
section is present and the element loop does not panic), the Import entries
are the decoded entries in order followed by one function import `env.addgas`
whose type index is a valid index of `Types.Entries`, at an entry with
parameters `[i32]` and no results. -/
theorem gas_import_appended (m : Module) (e : SectionExports) (hd : Decoded m)
    (hE : m.Export = some e) (hEl : m.elementsIndexable) :
    ∃ m' pos imp' ty' t sig, DecodeModuleAddGas.transform m = Except.ok (m', pos) ∧
      m'.Import = some imp' ∧
      imp'.Entries = m.importEntries ++ [⟨"env", "addgas", Import.FuncImport t⟩] ∧
      m'.Types = some ty' ∧ t < ty'.Entries.length ∧ ty'.Entries[t]? = some sig ∧
      sig.ParamTypes = [ValueType.I32] ∧ sig.ReturnTypes = [] := by
  obtain ⟨m', imp', hok, hT, hI, hIe, -⟩ := DecodeModuleAddGas.transform_ok m e hd hE hEl
  obtain ⟨ty, sig, hty, hlt, hsig, hg⟩ := DecodeModuleAddGas.reserveType_spec m hd
  have hmod : (DecodeModuleAddGas.reserveType m).2 % 2 ^ 32 = (DecodeModuleAddGas.reserveType m).2 :=
    Nat.mod_eq_of_lt hlt
  refine ⟨m', _, imp', ty, (DecodeModuleAddGas.reserveType m).2, sig, hok, hI, ?_,
    hT.trans hty, ?_, hsig, ((isGasSig_iff sig).1 hg).1, ((isGasSig_iff sig).1 hg).2⟩
  · rw [hIe]
    unfold gasImport
    rw [hmod]
  · rcases List.getElem?_eq_some_iff.1 hsig with ⟨h, -⟩
    exact h

/-- C6 at `reexportModule`, which already imports `env.log`. -/
theorem gas_import_appended_witness :
    Decoded reexportModule ∧ reexportModule.Export = some reexportExports ∧
      reexportModule.elementsIndexable ∧
      ∃ m' pos imp' ty' t sig, DecodeModuleAddGas.transform reexportModule = Except.ok (m', pos) ∧
        m'.Import = some imp' ∧
        imp'.Entries =
          reexportModule.importEntries ++ [⟨"env", "addgas", Import.FuncImport t⟩] ∧
        m'.Types = some ty' ∧ t < ty'.Entries.length ∧ ty'.Entries[t]? = some sig ∧
        sig.ParamTypes = [ValueType.I32] ∧ sig.ReturnTypes = [] :=
  ⟨by decide, rfl, by decide,
    gas_import_appended reexportModule reexportExports (by decide) rfl (by decide)⟩

/-- C7: when the Types section of a decoded module holds an entry with the
single parameter `i32` and no results, and k is the lowest index of such an
entry, `DecodeModuleAddGas` leaves the Types section as decoded and the
appended `env.addgas` import has type index k. -/
theorem gas_type_reused (m : Module) (e : SectionExports) (t : SectionTypes) (k : Nat)
    (sig : FunctionSig) (hd : Decoded m) (hE : m.Export = some e) (hEl : m.elementsIndexable)
    (hT : m.Types = some t) (hk : t.Entries[k]? = some sig)
    (hsig : sig.ParamTypes = [ValueType.I32] ∧ sig.ReturnTypes = [])
    (hmin : ∀ j, j < k → ∀ s, t.Entries[j]? = some s →
      ¬ (s.ParamTypes = [ValueType.I32] ∧ s.ReturnTypes = [])) :
    ∃ m' pos imp', DecodeModuleAddGas.transform m = Except.ok (m', pos) ∧
      m'.Types = some t ∧ m'.Import = some imp' ∧
      imp'.Entries = m.importEntries ++ [⟨"env", "addgas", Import.FuncImport k⟩] := by
  obtain ⟨m', imp', hok, hT', hI, hIe, -⟩ := DecodeModuleAddGas.transform_ok m e hd hE hEl
  have hfirst : findGasSig t.Entries 0 = some (0 + k) :=
    findGasSig_first t.Entries 0 k sig hk ((isGasSig_iff sig).2 hsig)
      (fun j hj s hs => by
        have := hmin j hj s hs
        rw [← isGasSig_iff] at this
        simpa using this)
  rw [Nat.zero_add] at hfirst
  have hres := DecodeModuleAddGas.reserveType_found m t hT k hfirst
  have hlen := DecodeModuleAddGas.typeEntries_lt m hd
  have hklt : k < 2 ^ 32 := by
    rcases List.getElem?_eq_some_iff.1 hk with ⟨h, -⟩
    unfold Module.typeEntries at hlen
    rw [hT] at hlen
    exact lt_trans h hlen
  refine ⟨m', _, imp', hok, ?_, hI, ?_⟩
  · rw [hT', hres]
    exact hT
  · rw [hIe, hres]
    unfold gasImport
    rw [Nat.mod_eq_of_lt hklt]

/-- C7 at `gasTypedModule`: the entries 1 and 2 match, index 1 is used. -/
theorem gas_type_reused_witness :
    ∃ m' pos imp', DecodeModuleAddGas.transform gasTypedModule = Except.ok (m', pos) ∧
      m'.Types = some { Raw := rawOf 1, Entries := [unitSig, gasSig, gasSig] } ∧
      m'.Import = some imp' ∧
      imp'.Entries = gasTypedModule.importEntries ++ [⟨"env", "addgas", Import.FuncImport 1⟩] :=
  gas_type_reused gasTypedModule mainExports { Raw := rawOf 1, Entries := [unitSig, gasSig, gasSig] }
    1 gasSig (by decide) rfl (by decide) rfl rfl ⟨rfl, rfl⟩
    (fun j hj s hs => by
      have hj0 : j = 0 := by omega
      subst hj0
      simp only [List.getElem?_cons_zero, Option.some.injEq] at hs
      subst hs
      decide)

/-- C8: when no Types entry of a decoded module has parameters `[i32]` and no
results (also when there is no Types section), the Types entries after
`DecodeModuleAddGas` are the decoded ones in order followed by one entry of
form func with parameters `[i32]` and no results, and the appended
`env.addgas` import has the index of that last entry. -/
theorem gas_type_appended (m : Module) (e : SectionExports) (hd : Decoded m)
    (hE : m.Export = some e) (hEl : m.elementsIndexable)
    (hno : ∀ s, s ∈ m.typeEntries → ¬ (s.ParamTypes = [ValueType.I32] ∧ s.ReturnTypes = [])) :
    ∃ m' pos ty' imp', DecodeModuleAddGas.transform m = Except.ok (m', pos) ∧
      m'.Types = some ty' ∧
      ty'.Entries = m.typeEntries ++
        [{ Form := TypeFunc, ParamTypes := [ValueType.I32], ReturnTypes := [] }] ∧
      m'.Import = some imp' ∧
      imp'.Entries = m.importEntries ++
        [⟨"env", "addgas", Import.FuncImport m.typeEntries.length⟩] ∧
      ty'.Entries.length = m.typeEntries.length + 1 := by
  obtain ⟨m', imp', hok, hT', hI, hIe, -⟩ := DecodeModuleAddGas.transform_ok m e hd hE hEl
  have hnone : findGasSig m.typeEntries 0 = none := by
    rw [findGasSig_none]
    intro v hv
    have := hno v hv
    rw [← isGasSig_iff] at this
    simpa using this
  obtain ⟨ty, hty, hent, hpos⟩ := DecodeModuleAddGas.reserveType_appended m hnone
  have hlen := DecodeModuleAddGas.typeEntries_lt m hd
  refine ⟨m', _, ty, imp', hok, hT'.trans hty, hent, hI, ?_, by simp [hent, gasSig]⟩
  rw [hIe, hpos]
  unfold gasImport
  rw [Nat.mod_eq_of_lt hlen]

/-- C8 at `memoryOnlyModule`, which has no Types section: the section is
created with the one entry `(i32) -> ()`, and the import has type index 0. -/
theorem gas_type_appended_witness :
    ∃ m' pos ty' imp', DecodeModuleAddGas.transform memoryOnlyModule = Except.ok (m', pos) ∧
      m'.Types = some ty' ∧
      ty'.Entries = memoryOnlyModule.typeEntries ++
        [{ Form := TypeFunc, ParamTypes := [ValueType.I32], ReturnTypes := [] }] ∧
      m'.Import = some imp' ∧
      imp'.Entries = memoryOnlyModule.importEntries ++
        [⟨"env", "addgas", Import.FuncImport memoryOnlyModule.typeEntries.length⟩] ∧
      ty'.Entries.length = memoryOnlyModule.typeEntries.length + 1 :=
  gas_type_appended memoryOnlyModule _ (by decide) rfl (by decide)
    (fun s hs => by simp [Module.typeEntries, memoryOnlyModule, emptyModule] at hs)

/-! ## Index consistency -/

theorem funcImportCount_append_gas (l : List ImportEntry) (tPos : Nat) :
    funcImportCount (l ++ [gasImport tPos]) = funcImportCount l + 1 := by
  simp [funcImportCount, gasImport, ImportEntry.isFunc, List.filter_append]

theorem shiftExport_kind (v : ExportEntry) : (shiftExport v).Kind = v.Kind := by
  unfold shiftExport
  split <;> rfl

theorem shiftExport_index_le (v : ExportEntry) : (shiftExport v).Index ≤ v.Index + 1 := by
  unfold shiftExport
  split
  · exact Nat.mod_le _ _
  · exact Nat.le_succ _

/-- C9: let N be the size of the function index space of a decoded module
(function imports plus defined functions). If every function export index and
every element-segment value is below N, then in the module that
`DecodeModuleAddGas` returns the function index space has size N + 1 and every
function export index and every element-segment value is below N + 1. -/
theorem indices_stay_in_range (m : Module) (e : SectionExports) (hd : Decoded m)
    (hE : m.Export = some e) (hEl : m.elementsIndexable)
    (hx : ∀ k v, e.Entries.get k = some v → v.Kind = External.Function →
      v.Index < m.funcSpaceSize)
    (hs : ∀ el, m.Elements = some el → ∀ seg, seg ∈ el.Entries → ∀ x, x ∈ seg.Elems →
      x < m.funcSpaceSize) :
    ∃ m' pos, DecodeModuleAddGas.transform m = Except.ok (m', pos) ∧
      m'.funcSpaceSize = m.funcSpaceSize + 1 ∧
      (∀ e', m'.Export = some e' → ∀ k v, e'.Entries.get k = some v →
        v.Kind = External.Function → v.Index < m.funcSpaceSize + 1) ∧
      (∀ el', m'.Elements = some el' → ∀ seg, seg ∈ el'.Entries → ∀ x, x ∈ seg.Elems →
        x < m.funcSpaceSize + 1) := by
  obtain ⟨m', imp', hok, -, hI, hIe, hE', hF, -, -, hEn, hEs⟩ :=
    DecodeModuleAddGas.transform_ok m e hd hE hEl
  refine ⟨m', _, hok, ?_, ?_, ?_⟩
  · unfold Module.funcSpaceSize
    have hie : m'.importEntries = m.importEntries ++ [gasImport (DecodeModuleAddGas.reserveType m).2] := by
      unfold Module.importEntries
      rw [hI]
      exact hIe
    rw [hie, funcImportCount_append_gas, hF]
    omega
  · intro e' he' k v hk hv
    rw [hE'] at he'
    cases he'
    have hk' : (shiftExports e.Entries).get k = some v := hk
    rw [shiftExports_get] at hk'
    cases hg : e.Entries.get k with
    | none => simp [hg] at hk'
    | some w =>
      rw [hg] at hk'
      simp only [Option.map_some', Option.some.injEq] at hk'
      subst hk'
      rw [shiftExport_kind] at hv
      have := hx k w hg hv
      have := shiftExport_index_le w
      omega
  · intro el' hel' seg hseg x hx'
    cases hel : m.Elements with
    | none =>
      rw [hEn hel] at hel'
      cases hel'
    | some el =>
      obtain ⟨seg0, rest, hent, hm'⟩ := hEs el hel
      rw [hm'] at hel'
      cases hel'
      have hold := hs el hel
      simp only [List.mem_cons] at hseg
      rcases hseg with hseg | hseg
      · subst hseg
        simp only [shiftElems, List.mem_map] at hx'
        obtain ⟨y, hy, hyx⟩ := hx'
        have := hold seg0 (by rw [hent]; exact List.mem_cons_self _ _) y hy
        have hle : (y + 1) % 2 ^ 32 ≤ y + 1 := Nat.mod_le _ _
        omega
      · have := hold seg (by rw [hent]; exact List.mem_cons_of_mem _ hseg) x hx'
        omega

/-- C9 at `twoSegmentModule`, where N = 1. -/
theorem indices_stay_in_range_witness :
    twoSegmentModule.funcSpaceSize = 1 ∧
      ∃ m' pos, DecodeModuleAddGas.transform twoSegmentModule = Except.ok (m', pos) ∧
        m'.funcSpaceSize = twoSegmentModule.funcSpaceSize + 1 ∧
        (∀ e', m'.Export = some e' → ∀ k v, e'.Entries.get k = some v →
          v.Kind = External.Function → v.Index < twoSegmentModule.funcSpaceSize + 1) ∧
        (∀ el', m'.Elements = some el' → ∀ seg, seg ∈ el'.Entries → ∀ x, x ∈ seg.Elems →
          x < twoSegmentModule.funcSpaceSize + 1) :=
  ⟨rfl, indices_stay_in_range twoSegmentModule mainExports (by decide) rfl (by decide)
    (fun k v hk hv => by
      have hk' : List.lookup k mainExports.Entries.entries = some v := hk
      simp only [mainExports, List.lookup] at hk'
      split at hk'
      · cases hk'
        decide
      · split at hk'
        · cases hk'
          cases hv
        · cases hk')
    (fun el hel seg hseg x hx => by
      cases hel
      simp only [List.mem_cons, List.mem_singleton, List.not_mem_nil, or_false] at hseg
      rcases hseg with h | h <;> subst h <;> simp at hx <;> subst hx <;> decide)⟩

/-! ## A module without an Export section -/

/-- C10: on a decoded module without an Export section `DecodeModuleAddGas`
does not return a module: the export loop reads `m.Export.Entries` through the
nil pointer and panics. -/
theorem missing_export_section_panics (m : Module) (hd : Decoded m) (hE : m.Export = none) :
    DecodeModuleAddGas.transform m = Except.error Panic.nilPointerDereference :=
  DecodeModuleAddGas.transform_no_export m hd hE

/-- C10 at the module without any section. -/
theorem missing_export_section_panics_witness :
    Decoded emptyModule ∧ emptyModule.Export = none ∧
      DecodeModuleAddGas.transform emptyModule = Except.error Panic.nilPointerDereference :=
  ⟨by decide, rfl, missing_export_section_panics emptyModule (by decide) rfl⟩

/-! ## The instrumentation of any module -/

namespace DecodeModuleAddGas

/-- What a successful import step returns. -/
theorem ensureImport_inv (m m1 : Module) (imp : SectionImports)
    (h : ensureImport m = Except.ok (m1, imp)) :
    imp.Entries = m.importEntries ∧ m1.Types = m.Types ∧ m1.Export = m.Export ∧
      m1.Elements = m.Elements ∧ m1.Function = m.Function ∧ m1.Start = m.Start ∧
      m1.Code = m.Code ∧
      (∀ i, m.Import = some i → m1.Sections = m.Sections) ∧
      (m.Import = none → ∃ s temp, m.Sections = s :: temp ∧
        m1.Sections = s :: SectionRef.imports :: temp) := by
  unfold ensureImport at h
  unfold Module.importEntries
  cases hI : m.Import with
  | some i =>
    simp only [hI, Except.ok.injEq, Prod.mk.injEq] at h
    obtain ⟨hm, hi⟩ := h
    subst hm
    subst hi
    exact ⟨rfl, rfl, rfl, rfl, rfl, rfl, rfl, fun _ _ => rfl, by simp [hI]⟩
  | none =>
    cases hS : m.Sections with
    | nil => simp [hI, hS] at h
    | cons s temp =>
      simp only [hI, hS, Except.ok.injEq, Prod.mk.injEq] at h
      obtain ⟨hm, hi⟩ := h
      subst hm
      subst hi
      exact ⟨rfl, rfl, rfl, rfl, rfl, rfl, rfl, by simp, fun _ => ⟨s, temp, rfl, rfl⟩⟩

/-- What a successful element step returns. -/
theorem elementStep_inv (m m' : Module) (h : elementStep m = Except.ok m') :
    m.elementsIndexable ∧ m'.Sections = m.Sections ∧ m'.Types = m.Types ∧
      m'.Import = m.Import ∧ m'.Export = m.Export ∧ m'.Function = m.Function ∧
      m'.Start = m.Start ∧ m'.Code = m.Code ∧
      (m.Elements = none → m'.Elements = none) ∧
      (∀ el, m.Elements = some el → ∃ seg rest, el.Entries = seg :: rest ∧
        m'.Elements = some { el with Entries := shiftElems seg :: rest }) := by
  unfold elementStep at h
  unfold Module.elementsIndexable
  cases hE : m.Elements with
  | none =>
    simp only [hE, Except.ok.injEq] at h
    subst h
    exact ⟨trivial, rfl, rfl, rfl, rfl, rfl, rfl, rfl, fun _ => hE, by simp [hE]⟩
  | some el =>
    cases hS : el.Entries with
    | nil => simp [hE, hS] at h
    | cons seg rest =>
      simp only [hE, hS, Except.ok.injEq] at h
      subst h
      refine ⟨by simp [hS], rfl, rfl, rfl, rfl, rfl, rfl, rfl, by simp, ?_⟩
      intro el2 h2
      cases h2
      exact ⟨seg, rest, hS, rfl⟩

/-- What a successful instrumentation returns, for any module. -/
theorem transform_inv (m m' : Module) (pos : Int)
    (h : transform m = Except.ok (m', pos)) :
    ∃ m1 imp e, ensureImport (reserveType m).1 = Except.ok (m1, imp) ∧
      m.Export = some e ∧ m.elementsIndexable ∧
      pos = (m.importEntries.length : Int) ∧
      m'.Sections = m1.Sections ∧
      m'.Types = (reserveType m).1.Types ∧
      m'.Import = some { imp with Entries := m.importEntries ++ [gasImport (reserveType m).2] } ∧
      m'.Export = some { e with Entries := shiftExports e.Entries } ∧
      m'.Function = m.Function ∧ m'.Start = m.Start ∧ m'.Code = m.Code ∧
      (m.Elements = none → m'.Elements = none) ∧
      (∀ el, m.Elements = some el → ∃ seg rest, el.Entries = seg :: rest ∧
        m'.Elements = some { el with Entries := shiftElems seg :: rest }) := by
  obtain ⟨hrI, hrE, hrEl, hrF, hrS, hrC⟩ := reserveType_fields m
  unfold transform at h
  cases h1 : ensureImport (reserveType m).1 with
  | error p => simp [h1] at h
  | ok r =>
    obtain ⟨m1, imp⟩ := r
    obtain ⟨hie, h1T, h1E, h1El, h1F, h1S, h1C, -, -⟩ := ensureImport_inv _ m1 imp h1
    have hie' : imp.Entries = m.importEntries := by
      rw [hie]
      unfold Module.importEntries
      rw [hrI]
    simp only [h1, exportStep, h1E, hrE] at h
    cases hE : m.Export with
    | none => simp [hE] at h
    | some e =>
      simp only [hE] at h
      split at h
      · cases h
      · rename_i m4 h4
        simp only [Except.ok.injEq, Prod.mk.injEq] at h
        obtain ⟨hm, hp⟩ := h
        subst hm
        obtain ⟨hEl4, h4Sec, h4T, h4I, h4E, h4F, h4S, h4C, h4n, h4s⟩ := elementStep_inv _ _ h4
        refine ⟨m1, imp, e, rfl, rfl, ?_, ?_, h4Sec, ?_, ?_, h4E, ?_, ?_, ?_, ?_, ?_⟩
        · unfold Module.elementsIndexable at hEl4 ⊢
          simpa [h1El, hrEl] using hEl4
        · rw [← hp, hie']
          simp
        · rw [h4T]
          exact h1T
        · rw [h4I, hie']
        · rw [h4F]
          simp [h1F, hrF]
        · rw [h4S]
          simp [h1S, hrS]
        · rw [h4C]
          simp [h1C, hrC]
        · intro hn
          apply h4n
          simp [h1El, hrEl, hn]
        · intro el hel
          apply h4s
          simp [h1El, hrEl, hel]

/-- The instrumentation returns whenever the import step does, the module has
an Export section and the element loop does not panic. -/
theorem transform_of_steps (m m1 : Module) (imp : SectionImports) (e : SectionExports)
    (h1 : ensureImport (reserveType m).1 = Except.ok (m1, imp))
    (hE : m.Export = some e) (hEl : m.elementsIndexable) :
    ∃ m', transform m = Except.ok (m', (m.importEntries.length : Int)) := by
  obtain ⟨hrI, hrE, hrEl, hrF, hrS, hrC⟩ := reserveType_fields m
  obtain ⟨hie, h1T, h1E, h1El, h1F, h1S, h1C, -, -⟩ := ensureImport_inv _ m1 imp h1
  have hie' : imp.Entries = m.importEntries := by
    rw [hie]
    unfold Module.importEntries
    rw [hrI]
  have hEl3 : Module.elementsIndexable
      { m1 with
        Import := some { imp with Entries := imp.Entries ++ [gasImport (reserveType m).2] },
        Export := some { e with Entries := shiftExports e.Entries } } := by
    unfold Module.elementsIndexable at hEl ⊢
    simp only [h1El, hrEl]
    exact hEl
  obtain ⟨m4, h4, -⟩ := elementStep_ok _ hEl3
  refine ⟨m4, ?_⟩
  unfold transform
  rw [h1]
  simp only [exportStep, h1E, hrE, hE, h4]
  simp [hie']

end DecodeModuleAddGas

/-! ## A module without a Code section -/

/-- C11: when the input decodes to a module without a Code section, `main`
ends in a failure (a panic or `log.Fatal`) that does not depend on
`EncodeModule` or `WriteFile`, which are not reached, and passes no bytes to
`WriteFile`. -/
theorem no_code_section_is_fatal (Instr : Type) (raw : List Nat)
    (readSections : Nat → List Nat → Except DecodeError Module) (m : Module)
    (hdec : DecodeModule readSections raw = Except.ok m) (hC : m.Code = none) :
    ∃ x, x ≠ Exit.success ∧
      ∀ (dis : List Nat → Int → Except String (List Instr))
        (asm : List Instr → Except String (List Nat))
        (enc : Module → List Nat × Option String) (wf : List Nat → Option String),
        main (Except.ok raw) readSections dis asm enc wf = ⟨x, none⟩ := by
  have hAdd := DecodeModuleAddGas_of_decoded readSections raw m hdec
  cases ht : DecodeModuleAddGas.transform m with
  | error p =>
    rw [ht] at hAdd
    refine ⟨Exit.panic p, by simp, ?_⟩
    intro dis asm enc wf
    unfold main
    simp only [hAdd]
  | ok res =>
    obtain ⟨m', pos⟩ := res
    rw [ht] at hAdd
    obtain ⟨m1, imp, e, -, -, -, -, -, -, -, -, -, -, hC', -⟩ :=
      DecodeModuleAddGas.transform_inv m m' pos ht
    refine ⟨Exit.fatal FatalArg.nilError, by simp, ?_⟩
    intro dis asm enc wf
    unfold main
    simp only [hAdd, hC', hC]

/-- C11 at an input that decodes to `memoryOnlyModule`: the run ends in
`log.Fatal` with the nil error. -/
theorem no_code_section_is_fatal_witness :
    DecodeModule (constReader memoryOnlyModule) wasmHeader =
        Except.ok { memoryOnlyModule with Version := 1 } ∧
      ∃ x, x ≠ Exit.success ∧
        ∀ (dis : List Nat → Int → Except String (List Nat))
          (asm : List Nat → Except String (List Nat))
          (enc : Module → List Nat × Option String) (wf : List Nat → Option String),
          main (Except.ok wasmHeader) (constReader memoryOnlyModule) dis asm enc wf =
            ⟨x, none⟩ :=
  ⟨rfl, no_code_section_is_fatal Nat wasmHeader (constReader memoryOnlyModule)
    { memoryOnlyModule with Version := 1 } rfl rfl⟩

/-! ## The header -/

/-- C12: for every input and every section reader, when the first `uint32`
read differs from `Magic`, `DecodeModule` and `DecodeModuleAddGas` return
`ErrInvalidMagic`; when it is `Magic` and the next `uint32` differs from
`Version`, both return the unknown-binary-version error. In both cases the
result is an error, not a module, whatever the section reader is: it is not
called. -/
theorem header_checked (readSections : Nat → List Nat → Except DecodeError Module)
    (r : List Nat) :
    (∀ magic r1, readU32 r = Except.ok (magic, r1) → magic ≠ Magic →
      DecodeModule readSections r = Except.error DecodeError.ErrInvalidMagic ∧
      DecodeModuleAddGas readSections r =
        Except.error (Failure.error DecodeError.ErrInvalidMagic)) ∧
    (∀ r1 version r2, readU32 r = Except.ok (Magic, r1) →
      readU32 r1 = Except.ok (version, r2) → version ≠ Version →
      DecodeModule readSections r =
        Except.error (DecodeError.unknownBinaryVersion version) ∧
      DecodeModuleAddGas readSections r =
        Except.error (Failure.error (DecodeError.unknownBinaryVersion version))) := by
  constructor
  · intro magic r1 h1 hm
    unfold DecodeModule DecodeModuleAddGas
    simp only [h1, hm, ne_eq, not_false_eq_true, if_true, and_self]
  · intro r1 version r2 h1 h2 hv
    unfold DecodeModule DecodeModuleAddGas
    simp only [h1, h2, hv, ne_eq, not_true_eq_false, not_false_eq_true, if_true, if_false,
      and_self]

/-- C12 at the inputs `[1, 2, 3, 4]` (wrong magic number) and the header of
version 2. -/
theorem header_checked_witness :
    (DecodeModule (constReader mainModule) [1, 2, 3, 4] =
        Except.error DecodeError.ErrInvalidMagic ∧
      DecodeModuleAddGas (constReader mainModule) [1, 2, 3, 4] =
        Except.error (Failure.error DecodeError.ErrInvalidMagic)) ∧
    (DecodeModule (constReader mainModule) [0x00, 0x61, 0x73, 0x6d, 2, 0, 0, 0] =
        Except.error (DecodeError.unknownBinaryVersion 2) ∧
      DecodeModuleAddGas (constReader mainModule) [0x00, 0x61, 0x73, 0x6d, 2, 0, 0, 0] =
        Except.error (Failure.error (DecodeError.unknownBinaryVersion 2))) :=
  ⟨(header_checked (constReader mainModule) [1, 2, 3, 4]).1 67305985 [] rfl (by decide),
    (header_checked (constReader mainModule) [0x00, 0x61, 0x73, 0x6d, 2, 0, 0, 0]).2
      [2, 0, 0, 0] 2 [] rfl rfl (by decide)⟩

/-! ## The section sequence -/

namespace DecodeModuleAddGas

/-- The section sequence after the type step. -/
theorem reserveType_sections_eq (m : Module) :
    (m.Types = none → (reserveType m).1.Sections = SectionRef.types :: m.Sections) ∧
      (∀ t, m.Types = some t → (reserveType m).1.Sections = m.Sections) := by
  unfold reserveType
  cases hT : m.Types with
  | none => simp
  | some t =>
    refine ⟨by simp, ?_⟩
    intro t' ht'
    cases ht'
    cases hf : findGasSig t.Entries 0 <;> simp only [hf]

end DecodeModuleAddGas

/-- C13: on a decoded module on which `DecodeModuleAddGas` returns, (1) when
there is no Types section, the returned section sequence starts with the
created Types section and goes on with the decoded sequence, the created
Import section in front of it when that was missing too; (2) when there are a
Types and an Import section, the returned sequence is the decoded one. -/
theorem sections_after_instrumentation (m : Module) (e : SectionExports) (hd : Decoded m)
    (hE : m.Export = some e) (hEl : m.elementsIndexable) :
    ∃ m' pos, DecodeModuleAddGas.transform m = Except.ok (m', pos) ∧
      (m.Types = none →
        m'.Sections.head? = some SectionRef.types ∧
        m.Sections.Sublist m'.Sections.tail ∧
        (∀ i, m.Import = some i → m'.Sections = SectionRef.types :: m.Sections) ∧
        (m.Import = none →
          m'.Sections = SectionRef.types :: SectionRef.imports :: m.Sections)) ∧
      (∀ t i, m.Types = some t → m.Import = some i → m'.Sections = m.Sections) := by
  obtain ⟨m', -, hok, -⟩ := DecodeModuleAddGas.transform_ok m e hd hE hEl
  obtain ⟨m1, imp, e', h1, -, -, -, hSec, -⟩ := DecodeModuleAddGas.transform_inv m m' _ hok
  obtain ⟨-, -, -, -, -, -, -, hsome, hnone⟩ := DecodeModuleAddGas.ensureImport_inv _ m1 imp h1
  obtain ⟨hrI, -⟩ := DecodeModuleAddGas.reserveType_fields m
  obtain ⟨hTn, hTs⟩ := DecodeModuleAddGas.reserveType_sections_eq m
  rw [hrI] at hsome hnone
  have hboth : (∀ i, m.Import = some i → m'.Sections = SectionRef.types :: m.Sections) ∧
      (m.Import = none →
        m'.Sections = SectionRef.types :: SectionRef.imports :: m.Sections) ∨ m.Types ≠ none := by
    cases hT : m.Types with
    | some t => exact Or.inr (by simp)
    | none =>
      left
      constructor
      · intro i hi
        rw [hSec, hsome i hi, hTn hT]
      · intro hn
        obtain ⟨s, temp, hs, hs1⟩ := hnone hn
        rw [hTn hT] at hs
        cases hs
        rw [hSec, hs1]
  refine ⟨m', _, hok, ?_, ?_⟩
  · intro hT
    rcases hboth with ⟨hi, hn⟩ | hne
    · cases hI : m.Import with
      | some i =>
        rw [hi i hI]
        exact ⟨rfl, List.Sublist.refl _, fun _ _ => rfl, fun h => (by cases h)⟩
      | none =>
        rw [hn hI]
        exact ⟨rfl, List.Sublist.cons _ (List.Sublist.refl _), fun _ h => (by cases h),
          fun _ => rfl⟩
    · exact absurd hT hne
  · intro t i hT hI
    rw [hSec, hsome i hI, hTs t hT]

/-- C13 at `memoryOnlyModule` (neither section) and at `reexportModule` (both
sections). -/
theorem sections_after_instrumentation_witness :
    (∃ m' pos, DecodeModuleAddGas.transform memoryOnlyModule = Except.ok (m', pos) ∧
      m'.Sections = [SectionRef.types, SectionRef.imports, SectionRef.memories,
        SectionRef.exports]) ∧
    (∃ m' pos, DecodeModuleAddGas.transform reexportModule = Except.ok (m', pos) ∧
      m'.Sections = reexportModule.Sections) := by
  constructor
  · obtain ⟨m', pos, hok, h1, -⟩ :=
      sections_after_instrumentation memoryOnlyModule _ (by decide) rfl (by decide)
    exact ⟨m', pos, hok, (h1 rfl).2.2.2 rfl⟩
  · obtain ⟨m', pos, hok, -, h2⟩ :=
      sections_after_instrumentation reexportModule reexportExports (by decide) rfl (by decide)
    exact ⟨m', pos, hok, h2 _ _ rfl rfl⟩

/-- C14, at a module whose first section is a custom section and that has no
Import section: the created Import section is put at index 1, in front of the
Types section, not behind it. -/
theorem created_import_section_precedes_types :
    customFirstModule.Import = none ∧
      customFirstModule.Sections = [SectionRef.custom 0, SectionRef.types,
        SectionRef.functions, SectionRef.memories, SectionRef.exports, SectionRef.code] ∧
      ∃ m' pos, DecodeModuleAddGas.transform customFirstModule = Except.ok (m', pos) ∧
        m'.Sections = [SectionRef.custom 0, SectionRef.imports, SectionRef.types,
          SectionRef.functions, SectionRef.memories, SectionRef.exports, SectionRef.code] :=
  ⟨rfl, rfl, _, _, rfl, rfl⟩

/-! ## Instrumenting twice -/

theorem findGasSig_append_gasSig (l : List FunctionSig) (k : Nat)
    (h : findGasSig l k = none) : findGasSig (l ++ [gasSig]) k = some (k + l.length) := by
  induction l generalizing k with
  | nil =>
    have hg : isGasSig gasSig = true := by decide
    simp [findGasSig, hg]
  | cons v l ih =>
    unfold findGasSig at h
    by_cases hv : isGasSig v = true
    · simp [hv] at h
    · simp only [hv] at h
      have := ih (k + 1) h
      rw [List.cons_append]
      unfold findGasSig
      simp only [hv]
      rw [this]
      simp only [Bool.false_eq_true, if_false, Option.some.injEq, List.length_cons]
      omega

theorem shiftExport_twice (v : ExportEntry) (hv : v.Kind = External.Function) :
    shiftExport (shiftExport v) = { v with Index := (v.Index + 2) % 2 ^ 32 } := by
  have h1 : shiftExport v = { v with Index := (v.Index + 1) % 2 ^ 32 } := by
    simp [shiftExport, hv, ExternalFunction]
  rw [h1]
  simp only [shiftExport, hv, ExternalFunction, if_true]
  have : ((v.Index + 1) % 2 ^ 32 + 1) % 2 ^ 32 = (v.Index + 2) % 2 ^ 32 := by
    rw [Nat.mod_add_mod]
  rw [this]

namespace DecodeModuleAddGas

/-- After the type step, the type loop finds `tPos`. -/
theorem findGasSig_reserved (m : Module) :
    ∃ ty, (reserveType m).1.Types = some ty ∧
      findGasSig ty.Entries 0 = some (reserveType m).2 := by
  cases hf : findGasSig m.typeEntries 0 with
  | none =>
    obtain ⟨ty, hty, hent, hpos⟩ := reserveType_appended m hf
    refine ⟨ty, hty, ?_⟩
    rw [hent, hpos, findGasSig_append_gasSig _ 0 hf, Nat.zero_add]
  | some k =>
    cases hT : m.Types with
    | none =>
      unfold Module.typeEntries at hf
      rw [hT] at hf
      simp [findGasSig] at hf
    | some t =>
      have hf' : findGasSig t.Entries 0 = some k := by
        unfold Module.typeEntries at hf
        rw [hT] at hf
        exact hf
      rw [reserveType_found m t hT k hf']
      exact ⟨t, hT, hf'⟩

/-- The type entries after the type step: the decoded ones, or those and one
more. -/
theorem reserveType_grows (m : Module) :
    (reserveType m).1.typeEntries = m.typeEntries ∨
      ∃ s, (reserveType m).1.typeEntries = m.typeEntries ++ [s] := by
  cases hf : findGasSig m.typeEntries 0 with
  | none =>
    obtain ⟨ty, hty, hent, -⟩ := reserveType_appended m hf
    right
    refine ⟨gasSig, ?_⟩
    unfold Module.typeEntries at hent ⊢
    rw [hty]
    exact hent
  | some k =>
    cases hT : m.Types with
    | none =>
      unfold Module.typeEntries at hf
      rw [hT] at hf
      simp [findGasSig] at hf
    | some t =>
      have hf' : findGasSig t.Entries 0 = some k := by
        unfold Module.typeEntries at hf
        rw [hT] at hf
        exact hf
      rw [reserveType_found m t hT k hf']
      exact Or.inl rfl

end DecodeModuleAddGas

/-- C15: on a decoded module with an Export section (the element loop not
panicking), the instrumentation can be applied twice. The two applications add
two `env.addgas` function imports with the same type index, add at most one
type entry in all, add 2 (as a `uint32`) to every function export index, and
the second position is the first plus 1. -/
theorem instrumented_twice (m : Module) (e : SectionExports) (hd : Decoded m)
    (hE : m.Export = some e) (hEl : m.elementsIndexable) :
    ∃ m1 p1 m2 p2 t e2,
      DecodeModuleAddGas.transform m = Except.ok (m1, p1) ∧
      DecodeModuleAddGas.transform m1 = Except.ok (m2, p2) ∧
      m2.importEntries = m.importEntries ++
        [⟨"env", "addgas", Import.FuncImport t⟩, ⟨"env", "addgas", Import.FuncImport t⟩] ∧
      (m2.typeEntries = m.typeEntries ∨ ∃ s, m2.typeEntries = m.typeEntries ++ [s]) ∧
      m2.Export = some e2 ∧
      (∀ k v, e.Entries.get k = some v → v.Kind = External.Function →
        e2.Entries.get k = some { v with Index := (v.Index + 2) % 2 ^ 32 }) ∧
      p2 = p1 + 1 := by
  obtain ⟨m1, -, hok1, -⟩ := DecodeModuleAddGas.transform_ok m e hd hE hEl
  obtain ⟨ma, impa, e', h1a, hE', -, -, -, hT1, hI1, hE1, -, -, -, hEn1, hEs1⟩ :=
    DecodeModuleAddGas.transform_inv m m1 _ hok1
  rw [hE] at hE'
  cases hE'
  obtain ⟨ty, hty, hfind⟩ := DecodeModuleAddGas.findGasSig_reserved m
  have hT1' : m1.Types = some ty := hT1.trans hty
  have hres1 := DecodeModuleAddGas.reserveType_found m1 ty hT1' _ hfind
  have hstep1 : DecodeModuleAddGas.ensureImport (DecodeModuleAddGas.reserveType m1).1 =
      Except.ok (m1, { impa with
        Entries := m.importEntries ++ [gasImport (DecodeModuleAddGas.reserveType m).2] }) := by
    rw [hres1]
    unfold DecodeModuleAddGas.ensureImport
    simp only [hI1]
  have hEl1 : m1.elementsIndexable := by
    unfold Module.elementsIndexable
    cases hel : m.Elements with
    | none =>
      rw [hEn1 hel]
      trivial
    | some el =>
      obtain ⟨seg, rest, -, hm1⟩ := hEs1 el hel
      rw [hm1]
      simp
  obtain ⟨m2, hok2⟩ := DecodeModuleAddGas.transform_of_steps m1 _ _ _ hstep1 hE1 hEl1
  obtain ⟨mb, impb, e1, h1b, hE1', -, -, -, hT2, hI2, hE2, -⟩ :=
    DecodeModuleAddGas.transform_inv m1 m2 _ hok2
  rw [hE1] at hE1'
  cases hE1'
  have hie1 : m1.importEntries =
      m.importEntries ++ [gasImport (DecodeModuleAddGas.reserveType m).2] := by
    show (match m1.Import with
      | some imp => imp.Entries
      | none => []) = _
    rw [hI1]
  refine ⟨m1, _, m2, _, (DecodeModuleAddGas.reserveType m).2 % 2 ^ 32, _, hok1, hok2,
    ?_, ?_, hE2, ?_, ?_⟩
  · have : m2.importEntries = m1.importEntries ++
        [gasImport (DecodeModuleAddGas.reserveType m1).2] := by
      show (match m2.Import with
        | some imp => imp.Entries
        | none => []) = _
      rw [hI2]
    rw [this, hie1, hres1]
    simp [gasImport]
  · have h2 : m2.typeEntries = (DecodeModuleAddGas.reserveType m).1.typeEntries := by
      unfold Module.typeEntries
      rw [hT2, hres1, hT1]
    rw [h2]
    exact DecodeModuleAddGas.reserveType_grows m
  · intro k v hk hv
    show (shiftExports (shiftExports e.Entries)).get k = _
    rw [shiftExports_get, shiftExports_get, hk]
    simp only [Option.map_some']
    rw [shiftExport_twice v hv]
  · rw [hie1]
    simp

/-- C15 at `mainModule`: `main` moves from function 0 to function 2, one type
entry is added, and the positions are 0 and 1. -/
theorem instrumented_twice_witness :
    ∃ m1 p1 m2 p2 t e2,
      DecodeModuleAddGas.transform mainModule = Except.ok (m1, p1) ∧
      DecodeModuleAddGas.transform m1 = Except.ok (m2, p2) ∧
      m2.importEntries = mainModule.importEntries ++
        [⟨"env", "addgas", Import.FuncImport t⟩, ⟨"env", "addgas", Import.FuncImport t⟩] ∧
      (m2.typeEntries = mainModule.typeEntries ∨
        ∃ s, m2.typeEntries = mainModule.typeEntries ++ [s]) ∧
      m2.Export = some e2 ∧
      (∀ k v, mainExports.Entries.get k = some v → v.Kind = External.Function →
        e2.Entries.get k = some { v with Index := (v.Index + 2) % 2 ^ 32 }) ∧
      p2 = p1 + 1 :=
  instrumented_twice mainModule mainExports (by decide) rfl (by decide)

/-! ## The body loop of `main` -/

/-- When every call succeeds, the loop returns the bodies in order, each with
its own code disassembled and assembled again. -/
theorem bodyLoop_ok {Instr : Type}
    (dis : List Nat → Int → Except String (List Instr))
    (asm : List Instr → Except String (List Nat)) (pos : Int) (bodies : List FunctionBody)
    (h : ∀ b, b ∈ bodies → ∃ d c, dis b.Code pos = Except.ok d ∧ asm d = Except.ok c) :
    ∃ out, bodyLoop dis asm pos bodies = Except.ok out ∧ out.length = bodies.length ∧
      ∀ (i : Nat) (b : FunctionBody), bodies[i]? = some b →
        ∃ d c, dis b.Code pos = Except.ok d ∧ asm d = Except.ok c ∧
          out[i]? = some { b with Code := c } := by
  induction bodies with
  | nil => exact ⟨[], rfl, rfl, by simp⟩
  | cons b rest ih =>
    obtain ⟨d, c, hd, hc⟩ := h b (List.mem_cons_self _ _)
    obtain ⟨out, hout, hlen, hall⟩ := ih (fun b' hb' => h b' (List.mem_cons_of_mem _ hb'))
    refine ⟨{ b with Code := c } :: out, ?_, by simp [hlen], ?_⟩
    · unfold bodyLoop
      simp only [hd, hc, hout]
    · intro i b' hb'
      cases i with
      | zero =>
        simp only [List.getElem?_cons_zero, Option.some.injEq] at hb'
        subst hb'
        exact ⟨d, c, hd, hc, by simp⟩
      | succ i =>
        rw [List.getElem?_cons_succ] at hb'
        obtain ⟨d', c', hd', hc', ho⟩ := hall i b' hb'
        exact ⟨d', c', hd', hc', by simpa using ho⟩

/-- The loop ends at the first body on which a call fails, with the error of
that call. -/
theorem bodyLoop_first_failure {Instr : Type}
    (dis : List Nat → Int → Except String (List Instr))
    (asm : List Instr → Except String (List Nat)) (pos : Int) (bodies : List FunctionBody)
    (i : Nat) (b : FunctionBody) (hb : bodies[i]? = some b)
    (hprev : ∀ (j : Nat) (bj : FunctionBody), j < i → bodies[j]? = some bj →
      ∃ d c, dis bj.Code pos = Except.ok d ∧ asm d = Except.ok c) :
    (∀ err, dis b.Code pos = Except.error err →
      bodyLoop dis asm pos bodies = Except.error (FatalArg.disasm err)) ∧
    (∀ d err, dis b.Code pos = Except.ok d → asm d = Except.error err →
      bodyLoop dis asm pos bodies = Except.error (FatalArg.asm err)) := by
  induction bodies generalizing i with
  | nil => simp at hb
  | cons b0 rest ih =>
    cases i with
    | zero =>
      simp only [List.getElem?_cons_zero, Option.some.injEq] at hb
      subst hb
      constructor
      · intro err herr
        unfold bodyLoop
        simp only [herr]
      · intro d err hd herr
        unfold bodyLoop
        simp only [hd, herr]
    | succ i =>
      rw [List.getElem?_cons_succ] at hb
      obtain ⟨d0, c0, hd0, hc0⟩ := hprev 0 b0 (Nat.succ_pos i) (by simp)
      have ih' := ih i hb (fun j bj hj hbj => hprev (j + 1) bj (by omega) (by simpa using hbj))
      constructor
      · intro err herr
        unfold bodyLoop
        simp only [hd0, hc0, ih'.1 err herr]
      · intro d err hd herr
        unfold bodyLoop
        simp only [hd0, hc0, ih'.2 d err hd herr]

/-- C18: in `main`, with `pos` the position returned by `DecodeModuleAddGas`
and `code` the Code section of the returned module: (1) when every
`DisassembleAddGas` and `Assemble` call succeeds, the loop leaves as many
bodies as before, body i holding `Assemble(DisassembleAddGas(code of body i,
pos))`, and this module is the one `EncodeModule` is given; (2) when a call
fails on body i and none failed before, `main` ends in `log.Fatal` with the
error of that call and writes nothing. -/
theorem bodies_rewritten_in_order (Instr : Type) (raw : List Nat)
    (readSections : Nat → List Nat → Except DecodeError Module)
    (dis : List Nat → Int → Except String (List Instr))
    (asm : List Instr → Except String (List Nat)) (m : Module) (pos : Int)
    (code : SectionCode)
    (hdec : DecodeModuleAddGas readSections raw = Except.ok (m, pos))
    (hcode : m.Code = some code) :
    ((∀ b, b ∈ code.Bodies → ∃ d c, dis b.Code pos = Except.ok d ∧ asm d = Except.ok c) →
      ∃ out, bodyLoop dis asm pos code.Bodies = Except.ok out ∧
        out.length = code.Bodies.length ∧
        (∀ (i : Nat) (b : FunctionBody), code.Bodies[i]? = some b →
          ∃ d c, dis b.Code pos = Except.ok d ∧ asm d = Except.ok c ∧
            out[i]? = some { b with Code := c }) ∧
        ∀ (enc enc' : Module → List Nat × Option String) (wf : List Nat → Option String),
          enc { m with Code := some { code with Bodies := out } } =
            enc' { m with Code := some { code with Bodies := out } } →
          main (Except.ok raw) readSections dis asm enc wf =
            main (Except.ok raw) readSections dis asm enc' wf) ∧
    (∀ (i : Nat) (b : FunctionBody), code.Bodies[i]? = some b →
      (∀ (j : Nat) (bj : FunctionBody), j < i → code.Bodies[j]? = some bj →
        ∃ d c, dis bj.Code pos = Except.ok d ∧ asm d = Except.ok c) →
      (∀ err, dis b.Code pos = Except.error err →
        ∀ (enc : Module → List Nat × Option String) (wf : List Nat → Option String),
          main (Except.ok raw) readSections dis asm enc wf =
            ⟨Exit.fatal (FatalArg.disasm err), none⟩) ∧
      (∀ d err, dis b.Code pos = Except.ok d → asm d = Except.error err →
        ∀ (enc : Module → List Nat × Option String) (wf : List Nat → Option String),
          main (Except.ok raw) readSections dis asm enc wf =
            ⟨Exit.fatal (FatalArg.asm err), none⟩)) := by
  constructor
  · intro hall
    obtain ⟨out, hout, hlen, hbodies⟩ := bodyLoop_ok dis asm pos code.Bodies hall
    refine ⟨out, hout, hlen, hbodies, ?_⟩
    intro enc enc' wf henc
    unfold main
    simp only [hdec, hcode, hout, henc]
  · intro i b hb hprev
    obtain ⟨h1, h2⟩ := bodyLoop_first_failure dis asm pos code.Bodies i b hb hprev
    constructor
    · intro err herr enc wf
      unfold main
      simp only [hdec, hcode, h1 err herr]
    · intro d err hd herr enc wf
      unfold main
      simp only [hdec, hcode, h2 d err hd herr]

/-- C18 at an input decoded to `twoBodyModule`: with stand-ins that always
succeed the two bodies are rewritten in order; with a disassembler that
rejects the first body the run ends in `log.Fatal`. -/
theorem bodies_rewritten_in_order_witness :
    (∃ out, bodyLoop prependCall emitBytes 0 [{ Code := [0x01, 0x0b] }, { Code := [0x0b] }] =
        Except.ok out ∧
      out = [{ Code := [0x10, 0, 0x01, 0x0b] }, { Code := [0x10, 0, 0x0b] }]) ∧
    (∀ (enc : Module → List Nat × Option String) (wf : List Nat → Option String),
      main (Except.ok wasmHeader) (constReader twoBodyModule) rejectNop emitBytes enc wf =
        ⟨Exit.fatal (FatalArg.disasm "nop"), none⟩) := by
  have hdec : ∃ m, DecodeModuleAddGas (constReader twoBodyModule) wasmHeader =
      Except.ok (m, 0) ∧
      m.Code = some { Raw := rawOf 10, Bodies := [{ Code := [0x01, 0x0b] }, { Code := [0x0b] }] } :=
    ⟨_, rfl, rfl⟩
  obtain ⟨m, hm, hc⟩ := hdec
  constructor
  · obtain ⟨out, hout, -, hb, -⟩ :=
      (bodies_rewritten_in_order Nat wasmHeader (constReader twoBodyModule) prependCall
        emitBytes m 0 _ hm hc).1
        (fun b hb => ⟨0x10 :: 0 :: b.Code, 0x10 :: 0 :: b.Code, rfl, rfl⟩)
    refine ⟨out, hout, ?_⟩
    have hout' : bodyLoop prependCall emitBytes 0
        [{ Code := [0x01, 0x0b] }, { Code := [0x0b] }] =
        Except.ok [{ Code := [0x10, 0, 0x01, 0x0b] }, { Code := [0x10, 0, 0x0b] }] := rfl
    rw [hout'] at hout
    cases hout
    rfl
  · exact ((bodies_rewritten_in_order Nat wasmHeader (constReader twoBodyModule) rejectNop
      emitBytes m 0 _ hm hc).2 0 { Code := [0x01, 0x0b] } rfl
        (fun j bj hj _ => absurd hj (Nat.not_lt_zero j))).1 "nop" rfl

/-! ## The error of `EncodeModule` -/

/-- C17: `main` decodes the buffer again before it writes it. With an encoder
whose failed encodings do not decode, (1) whenever `EncodeModule` returns an
error, `main` ends in `log.Fatal` and passes nothing to `WriteFile`; (2) every
buffer that `main` passes to `WriteFile` is one that `EncodeModule` returned
without an error. -/
theorem failed_encoding_not_written (Instr : Type) (raw : List Nat)
    (readSections : Nat → List Nat → Except DecodeError Module)
    (dis : List Nat → Int → Except String (List Instr))
    (asm : List Instr → Except String (List Nat))
    (enc : Module → List Nat × Option String) (wf : List Nat → Option String)
    (hrej : FailedEncodingRejected readSections enc) :
    (∀ (m : Module) (pos : Int) (code : SectionCode) (bodies : List FunctionBody)
        (err : String),
      DecodeModuleAddGas readSections raw = Except.ok (m, pos) → m.Code = some code →
      bodyLoop dis asm pos code.Bodies = Except.ok bodies →
      (enc { m with Code := some { code with Bodies := bodies } }).2 = some err →
      ∃ e, main (Except.ok raw) readSections dis asm enc wf =
        ⟨Exit.fatal (FatalArg.decode e), none⟩) ∧
    (∀ buf, (main (Except.ok raw) readSections dis asm enc wf).output = some buf →
      ∃ m1, enc m1 = (buf, none)) := by
  constructor
  · intro m pos code bodies err hdec hcode hloop henc
    obtain ⟨e, he⟩ := hrej { m with Code := some { code with Bodies := bodies } }
      (enc { m with Code := some { code with Bodies := bodies } }).1 err
      (Prod.ext rfl henc)
    refine ⟨e, ?_⟩
    unfold main
    simp only [hdec, hcode, hloop, he]
  · intro buf hout
    cases hdec : DecodeModuleAddGas readSections raw with
    | error f =>
      cases f <;> simp [main, hdec] at hout
    | ok r =>
      obtain ⟨m, pos⟩ := r
      cases hcode : m.Code with
      | none => simp [main, hdec, hcode] at hout
      | some code =>
        cases hloop : bodyLoop dis asm pos code.Bodies with
        | error arg => simp [main, hdec, hcode, hloop] at hout
        | ok bodies =>
          cases hre : DecodeModule readSections
              (enc { m with Code := some { code with Bodies := bodies } }).1 with
          | error e => simp [main, hdec, hcode, hloop, hre] at hout
          | ok m3 =>
            have hbuf : (enc { m with Code := some { code with Bodies := bodies } }).1 = buf := by
              cases hwf : wf (enc { m with Code := some { code with Bodies := bodies } }).1 <;>
                simpa [main, hdec, hcode, hloop, hre, hwf] using hout
            cases h2 : (enc { m with Code := some { code with Bodies := bodies } }).2 with
            | none => exact ⟨_, Prod.ext hbuf h2⟩
            | some err =>
              obtain ⟨e, he⟩ := hrej _ _ err (Prod.ext rfl h2)
              rw [he] at hre
              cases hre

/-- C17 with an encoder that fails after the kind byte of the first section:
the buffer does not decode, and the run ends in `log.Fatal` with the read
error, nothing written. -/
theorem failed_encoding_not_written_witness :
    FailedEncodingRejected (endReader mainModule) truncatingEncoder ∧
      (∀ wf : List Nat → Option String,
        main (Except.ok wasmHeader) (endReader mainModule) prependCall emitBytes
          truncatingEncoder wf = ⟨Exit.fatal (FatalArg.decode (DecodeError.read 1)), none⟩) := by
  have hrej : FailedEncodingRejected (endReader mainModule) truncatingEncoder := by
    intro m buf err h
    have hb : buf = wasmHeader ++ [SectionIDType] := (congrArg Prod.fst h).symm
    subst hb
    exact ⟨DecodeError.read 1, rfl⟩
  refine ⟨hrej, ?_⟩
  intro wf
  obtain ⟨e, he⟩ := (failed_encoding_not_written Nat wasmHeader (endReader mainModule)
    prependCall emitBytes truncatingEncoder wf hrej).1 _ 0
      { Raw := rawOf 10, Bodies := [{ Code := [0x0b] }] } [{ Code := [0x10, 0, 0x0b] }]
      "encoding failed" rfl rfl rfl rfl
  have hmain : main (Except.ok wasmHeader) (endReader mainModule) prependCall emitBytes
      truncatingEncoder wf = ⟨Exit.fatal (FatalArg.decode (DecodeError.read 1)), none⟩ := rfl
  exact hmain

/-! ## An Elements section without segments -/

/-- C19: on a decoded module whose Elements section has no segment,
`DecodeModuleAddGas` does not return a module: it panics, with an index out of
range at `m.Elements.Entries[0]` when the module has an Export section (and
at the nil `m.Export` before that when it has none). -/
theorem empty_elements_section_panics (m : Module) (el : SectionElements) (hd : Decoded m)
    (hEl : m.Elements = some el) (hnil : el.Entries = []) :
    ∃ p, DecodeModuleAddGas.transform m = Except.error p ∧
      (m.Export ≠ none → p = Panic.indexOutOfRange) := by
  cases hE : m.Export with
  | none =>
    exact ⟨_, DecodeModuleAddGas.transform_no_export m hd hE, fun h => absurd rfl h⟩
  | some e =>
    exact ⟨_, DecodeModuleAddGas.transform_no_segment m e el hd hE hEl hnil, fun _ => rfl⟩

/-- C19 at `noSegmentModule`. -/
theorem empty_elements_section_panics_witness :
    Decoded noSegmentModule ∧
      noSegmentModule.Elements = some { Raw := rawOf 9, Entries := [] } ∧
      DecodeModuleAddGas.transform noSegmentModule = Except.error Panic.indexOutOfRange := by
  refine ⟨by decide, rfl, ?_⟩
  obtain ⟨p, hp, hidx⟩ :=
    empty_elements_section_panics noSegmentModule _ (by decide) rfl rfl
  rw [hp, hidx (by simp [noSegmentModule, mainModule])]

end Wasm
